import Mathlib

/-!
Shallow embedding of the events-CSV merge pipeline
(src/tools/merge_pipeline.py, class MergePipeline) and proofs about it.

The input file is modelled as already parsed by csv.DictReader: an optional
header (the fieldnames) and a list of rows, each row a finite map from
column name to string value, represented as an association list with the
keys distinct (as they are in a Python dict).  File IO, CSV quoting and the
wall-clock detection timestamps are outside the model; everything else
(errors, contexts, engagements, counters, exit codes) is embedded.
-/

namespace MergeSpec

/-- The characters Python str.strip() and the numeric parsers treat as
whitespace (ASCII part). -/
def isPySpace (c : Char) : Bool :=
  c = ' ' ∨ c = '\t' ∨ c = '\n' ∨ c = '\r' ∨ c = '\x0b' ∨ c = '\x0c'

/-- Python str.strip() on the character list. -/
def stripChars (cs : List Char) : List Char :=
  ((cs.dropWhile isPySpace).reverse.dropWhile isPySpace).reverse

/-- Lexicographic code-point comparison of character lists: Python string
less-than. -/
def charsLt : List Char → List Char → Bool
  | [], [] => false
  | [], _ :: _ => true
  | _ :: _, [] => false
  | a :: as2, b :: bs => if a = b then charsLt as2 bs else decide (a < b)

/-- Python string less-than (code-point lexicographic). -/
def pyStrLt (a b : String) : Bool := charsLt a.data b.data

/-- Whether the pattern is an initial segment of the list. -/
def listStartsWith (pat cs : List Char) : Bool :=
  match pat, cs with
  | [], _ => true
  | _ :: _, [] => false
  | p :: ps, c :: rest => p = c && listStartsWith ps rest

/-- Value of a nonempty all-digit character list, else none. -/
def digitsToNat? (cs : List Char) : Option Nat :=
  if cs = [] then none
  else if cs.all Char.isDigit then
    some (cs.foldl (fun a c => a * 10 + (c.toNat - 48)) 0)
  else none

/-- Models the Python builtin int(s) on strings: optional surrounding
whitespace, an optional sign, then a nonempty run of decimal digits.
(Digit-group underscores are not modelled.)  none models ValueError. -/
def pyInt? (s : String) : Option Int :=
  match stripChars s.data with
  | [] => none
  | c :: cs =>
    if c = '+' then (digitsToNat? cs).map Int.ofNat
    else if c = '-' then (digitsToNat? cs).map (fun n => -(n : Int))
    else (digitsToNat? (c :: cs)).map Int.ofNat

/-- Exponent part of a float literal after the e/E: optional sign then a
nonempty run of digits. -/
def expPartOk (cs : List Char) : Bool :=
  match cs with
  | [] => false
  | c :: cs2 =>
    if c = '+' ∨ c = '-' then !cs2.isEmpty && cs2.all Char.isDigit
    else (c :: cs2).all Char.isDigit

/-- Body of a decimal float literal (sign already stripped):
digits [. digits] [e/E exponent], with at least one mantissa digit.
Returns whether the denoted value equals zero, i.e. whether every mantissa
digit is 0.  none models ValueError. -/
def floatBodyZero? (cs : List Char) : Option Bool :=
  let p1 := cs.span Char.isDigit
  let p2 : List Char × List Char :=
    match p1.2 with
    | '.' :: rest => rest.span Char.isDigit
    | _ => ([], p1.2)
  let mantissa := p1.1 ++ p2.1
  if mantissa = [] then none
  else
    match p2.2 with
    | [] => some (mantissa.all (fun c => c = '0'))
    | 'e' :: es => if expPartOk es then some (mantissa.all (fun c => c = '0')) else none
    | 'E' :: es => if expPartOk es then some (mantissa.all (fun c => c = '0')) else none
    | _ => none

/-- Models the test float(s) == 0 in Python, together with whether float(s)
raises: none models ValueError; some b means the string parses and b says
whether the parsed value equals 0.  Modelled on decimal literals and the
inf/infinity/nan forms; digit-group underscores and exponents so small that
a nonzero literal underflows to 0.0 are not modelled (a literal counts as
zero iff all its mantissa digits are 0). -/
def pyFloatZero? (s : String) : Option Bool :=
  match stripChars s.data with
  | [] => none
  | c :: cs =>
    let body := if c = '+' ∨ c = '-' then cs else c :: cs
    let lowBody := body.map Char.toLower
    if lowBody = "inf".data ∨ lowBody = "infinity".data ∨ lowBody = "nan".data then
      some false
    else floatBodyZero? body

/-- A CSV row as produced by csv.DictReader: association list from column
name to value, keys distinct. -/
abbrev Row := List (String × String)

/-- row.get(k): first (only) binding of the key, none when absent. -/
def rget? (r : Row) (k : String) : Option String :=
  match r with
  | [] => none
  | kv :: rest => if kv.1 = k then some kv.2 else rget? rest k

/-- row.get(k, d). -/
def rgetD (r : Row) (k d : String) : String := (rget? r k).getD d

/-- str(row): a printable rendering of the row kept abstract up to the
exact dict syntax (only stored in error records, never inspected). -/
def rowRepr (r : Row) : String :=
  String.intercalate ", " (r.map (fun kv => kv.1 ++ "=" ++ kv.2))

/-- The Error dataclass. -/
structure Error where
  error_type : String
  severity : String
  session_id : Option String := none
  bar : Option String := none
  event_type : Option String := none
  column_name : Option String := none
  value_a : Option String := none
  value_b : Option String := none
  raw_row : Option String := none
deriving DecidableEq, Repr

/-- The ContextRow dataclass. -/
structure ContextRow where
  session_id : String
  bar : String
  session_type : String
  ts : String
  phase : Option String := none
  zone_id_snapshot : Option String := none
  zone_type_snapshot : Option String := none
  aggression : Option String := none
  facilitation : Option String := none
  market_state : Option String := none
  raw_state : Option String := none
  snapshot_message : Option String := none
  context_complete : Bool := false
  source_rows : Nat := 0
  has_snapshot : Bool := false
  has_lock : Bool := false
deriving DecidableEq, Repr

/-- The EngagementRow dataclass. -/
structure EngagementRow where
  session_id : String
  bar : String
  ts : String
  session_type : String
  zone_id : String
  zone_type : String
  entry_price : String
  exit_price : String
  bars : String
  outcome : String
  escape_vel : String
  vol_ratio : String
  context_bar : Option String := none
  context_stale : Option Bool := none
  ctx_aggression : Option String := none
  ctx_facilitation : Option String := none
  ctx_market_state : Option String := none
  ctx_phase : Option String := none
  orphan : Bool := false
  flags : List String := []
deriving DecidableEq, Repr

/-- Constants from the source. -/
def VALID_OUTCOMES : List String := ["ACCEPT", "REJECT", "TAG", "PROBE", "TEST"]

def STALENESS_THRESHOLD : Int := 50

def REQUIRED_COLUMNS : List String :=
  ["session_id", "session_type", "ts", "bar", "event_type"]

/-- EVENT_TYPE_RANK.get(event_type, 99). -/
def eventTypeRank (t : String) : Nat :=
  if t = "PHASE_SNAPSHOT" then 1
  else if t = "MODE_LOCK" then 2
  else if t = "ENGAGEMENT_FINAL" then 3
  else 99

/-- Mutable pipeline state (the fields of the MergePipeline object that the
algorithm reads and writes, plus the summary counters). -/
structure St where
  errors : List Error := []
  contexts : List ContextRow := []
  engagements : List EngagementRow := []
  has_fatal : Bool := false
  has_recoverable : Bool := false
  /-- Insertion-ordered dict (session_id, bar) -> ContextRow. -/
  context_by_session_bar : List ((String × String) × ContextRow) := []
  /-- Set of (session_id, bar, zone_id) engagement keys already seen. -/
  seen_engagements : List (String × String × String) := []
  sum_input_rows : Nat := 0
  sum_duplicate_rows_dropped : Nat := 0
  sum_context_rows : Nat := 0
  sum_engagement_rows : Nat := 0
  sum_error_count : Nat := 0
  sum_fatal_errors : Nat := 0
  sum_recoverable_errors : Nat := 0
deriving DecidableEq, Repr

def initSt : St := {}

/-- MergePipeline.add_error: append the error, bump the counters, and
return whether it was fatal (i.e. whether the caller should halt). -/
def addError (st : St) (e : Error) : Bool × St :=
  let st1 := { st with errors := st.errors ++ [e],
                       sum_error_count := st.sum_error_count + 1 }
  if e.severity = "FATAL" then
    (true, { st1 with has_fatal := true, sum_fatal_errors := st1.sum_fatal_errors + 1 })
  else
    (false, { st1 with has_recoverable := true,
                       sum_recoverable_errors := st1.sum_recoverable_errors + 1 })

/-- The parsed input file: DictReader fieldnames (none for a file with no
header line) and the data rows. -/
structure Input where
  header : Option (List String)
  rows : List Row
deriving DecidableEq, Repr

/-- REQUIRED_COLUMNS - set(fieldnames), listed in the declaration order of
the REQUIRED_COLUMNS literal (Python set iteration order is abstracted). -/
def missingColumns (h : List String) : List String :=
  REQUIRED_COLUMNS.filter (fun c => !(h.contains c))

/-- not row.get(k) or row.get(k).strip() == '': the identity value is
absent, empty, or whitespace-only. -/
def identityMissing (r : Row) (k : String) : Bool :=
  match rget? r k with
  | none => true
  | some v => (stripChars v.data).isEmpty

def missingIdentityError (k : String) (r : Row) : Error :=
  { error_type := "MISSING_IDENTITY", severity := "FATAL",
    column_name := some k, raw_row := some (rowRepr r) }

/-- The per-row loop of MergePipeline._load_input: count the row, check the
identity columns in order session_id, bar, ts, and on the first failure
record the fatal error and return the rows accumulated so far. -/
def loadLoop (st : St) (rows : List Row) (acc : List Row) : St × List Row :=
  match rows with
  | [] => (st, acc)
  | r :: rest =>
    let st1 := { st with sum_input_rows := st.sum_input_rows + 1 }
    if identityMissing r "session_id" then
      ((addError st1 (missingIdentityError "session_id" r)).2, acc)
    else if identityMissing r "bar" then
      ((addError st1 (missingIdentityError "bar" r)).2, acc)
    else if identityMissing r "ts" then
      ((addError st1 (missingIdentityError "ts" r)).2, acc)
    else
      loadLoop st1 rest (acc ++ [r])

/-- MergePipeline._load_input.  The required-columns check runs only when
reader.fieldnames is truthy (a present, nonempty header). -/
def loadInput (st : St) (inp : Input) : St × List Row :=
  match inp.header with
  | some h =>
    if h.isEmpty then loadLoop st inp.rows []
    else
      let missing := missingColumns h
      if missing.isEmpty then loadLoop st inp.rows []
      else
        ((addError st { error_type := "MISSING_COLUMNS", severity := "FATAL",
                        column_name := some (String.intercalate "," missing) }).2,
         [])
  | none => loadLoop st inp.rows []

/-- Ordering of (key, value) string pairs, as Python compares dict items
(tuples) lexicographically. -/
def pairLe (a b : String × String) : Bool :=
  pyStrLt a.1 b.1 || (a.1 == b.1 && !pyStrLt b.2 a.2)

def insertPair (x : String × String) : List (String × String) → List (String × String)
  | [] => [x]
  | y :: ys => if pairLe y x then y :: insertPair x ys else x :: y :: ys

/-- tuple(sorted(row.items())): the canonical dedup key of a row.  With the
distinct keys of a dict this is a canonical form, so two rows have the same
key iff they are equal as dicts. -/
def rowKey (r : Row) : Row := r.foldl (fun acc x => insertPair x acc) []

def seenHas : List (Row × Nat) → Row → Bool
  | [], _ => false
  | (k2, _) :: rest, k => k2 == k || seenHas rest k

/-- seen[row_key] += 1 (the key is present). -/
def seenBump : List (Row × Nat) → Row → List (Row × Nat)
  | [], _ => []
  | (k2, c) :: rest, k => if k2 = k then (k2, c + 1) :: rest else (k2, c) :: seenBump rest k

/-- First pass of MergePipeline._deduplicate: count occurrences per dedup
key (insertion-ordered dict) and keep the first occurrence of each. -/
def dedupPass (seen : List (Row × Nat)) (rows : List Row) (acc : List Row) :
    List (Row × Nat) × List Row :=
  match rows with
  | [] => (seen, acc)
  | r :: rest =>
    let k := rowKey r
    if seenHas seen k then dedupPass (seenBump seen k) rest acc
    else dedupPass (seen ++ [(k, 1)]) rest (acc ++ [r])

def dupRowError (k : Row) (c : Nat) : Error :=
  { error_type := "DUPLICATE_ROW", severity := "RECOVERABLE",
    session_id := rget? k "session_id", bar := rget? k "bar",
    event_type := rget? k "event_type",
    value_a := some ("count=" ++ toString c) }

/-- Second pass of MergePipeline._deduplicate: one DUPLICATE_ROW error per
key whose count exceeds 1, plus count-1 dropped rows. -/
def dedupLog (st : St) : List (Row × Nat) → St
  | [] => st
  | (k, c) :: rest =>
    if c > 1 then
      let st1 := (addError st (dupRowError k c)).2
      dedupLog { st1 with
        sum_duplicate_rows_dropped := st1.sum_duplicate_rows_dropped + (c - 1) } rest
    else dedupLog st rest

/-- MergePipeline._deduplicate. -/
def deduplicate (st : St) (rows : List Row) : St × List Row :=
  let p := dedupPass [] rows []
  (dedupLog st p.1, p.2)

/-- Result of a phase that can raise a Python exception: the state at the
point of the raise is kept, since the object was mutated in place. -/
inductive PRes (α : Type) where
  | ok (st : St) (val : α)
  | exn (st : St) (msg : String)
deriving DecidableEq, Repr

def intErrMsg (s : String) : String :=
  "invalid literal for int() with base 10: " ++ s

/-- int(row.get('bar', 0)): the literal default 0 when the column is
absent, else a parse of the string that can raise ValueError. -/
def rowBarInt? (r : Row) : Option Int :=
  match rget? r "bar" with
  | none => some (0 : Int)
  | some s => pyInt? s

/-- Python tuple < on the composite sort key (session_id, bar, rank). -/
def sortKeyLt (a b : String × Int × Nat) : Bool :=
  pyStrLt a.1 b.1 ||
    (a.1 == b.1 && (decide (a.2.1 < b.2.1) ||
      (a.2.1 == b.2.1 && decide (a.2.2 < b.2.2))))

/-- MergePipeline._validate_sort_order. -/
def sortOrderLoop (st : St) (rows : List Row) (prev : Option (String × Int × Nat)) :
    PRes Bool :=
  match rows with
  | [] => .ok st true
  | r :: rest =>
    let session_id := rgetD r "session_id" ""
    match rowBarInt? r with
    | none => .exn st (intErrMsg (rgetD r "bar" ""))
    | some bar =>
      let event_type := rgetD r "event_type" ""
      let ck := (session_id, bar, eventTypeRank event_type)
      match prev with
      | some pk =>
        if sortKeyLt ck pk then
          .ok ((addError st { error_type := "UNSORTED_INPUT", severity := "FATAL",
                              session_id := some session_id, bar := some (toString bar),
                              event_type := some event_type }).2) false
        else sortOrderLoop st rest (some ck)
      | none => sortOrderLoop st rest (some ck)

def validateSortOrder (st : St) (rows : List Row) : PRes Bool :=
  sortOrderLoop st rows none

/-- Append to the per-session list of a defaultdict(list), keys in
first-appearance order. -/
def sbAdd (m : List (String × List (Int × String))) (sid : String) (e : Int × String) :
    List (String × List (Int × String)) :=
  match m with
  | [] => [(sid, [e])]
  | (s, l) :: rest => if s = sid then (s, l ++ [e]) :: rest else (s, l) :: sbAdd rest sid e

/-- Build session_bars for MergePipeline._validate_timestamps; int(bar) can
raise before any state is mutated. -/
def sessionBarsLoop (rows : List Row) (m : List (String × List (Int × String))) :
    Except String (List (String × List (Int × String))) :=
  match rows with
  | [] => .ok m
  | r :: rest =>
    let sid := rgetD r "session_id" ""
    match rowBarInt? r with
    | none => .error (intErrMsg (rgetD r "bar" ""))
    | some bar => sessionBarsLoop rest (sbAdd m sid (bar, rgetD r "ts" ""))

/-- Stable insertion keeping elements with bar ≤ the new bar in front, so a
left fold implements Python's stable list.sort(key=bar). -/
def insertByBar (x : Int × String) : List (Int × String) → List (Int × String)
  | [] => [x]
  | y :: ys => if y.1 ≤ x.1 then y :: insertByBar x ys else x :: y :: ys

def stableSortByBar (l : List (Int × String)) : List (Int × String) :=
  l.foldl (fun acc x => insertByBar x acc) []

/-- Python max on two strings (the first argument on a tie). -/
def strMax (a b : String) : String := if pyStrLt a b then b else a

/-- The per-session scan of MergePipeline._validate_timestamps: returns the
first violating pair ((prev_bar, prev_ts), (bar, ts)) if any.  Only the
first entry listed at each strictly later bar is compared against the
running maximum of the previous bar; ties at the same bar update the max. -/
def tsScan : List (Int × String) → Option (Int × String) →
    Option ((Int × String) × (Int × String))
  | [], _ => none
  | (bar, ts) :: rest, none => tsScan rest (some (bar, ts))
  | (bar, ts) :: rest, some (pb, pt) =>
    if bar > pb ∧ pyStrLt ts pt then some ((pb, pt), (bar, ts))
    else if pb = bar then
      tsScan rest (some (pb, if pt = "" then ts else strMax pt ts))
    else tsScan rest (some (bar, ts))

def tsInversionError (sid : String) (p v : Int × String) : Error :=
  { error_type := "TIMESTAMP_INVERSION", severity := "FATAL",
    session_id := some sid,
    value_a := some ("bar" ++ toString p.1 ++ "=" ++ p.2),
    value_b := some ("bar" ++ toString v.1 ++ "=" ++ v.2) }

def tsSessionsScan (st : St) : List (String × List (Int × String)) → St × Bool
  | [] => (st, true)
  | (sid, l) :: rest =>
    match tsScan (stableSortByBar l) none with
    | some (p, v) => ((addError st (tsInversionError sid p v)).2, false)
    | none => tsSessionsScan st rest

/-- MergePipeline._validate_timestamps. -/
def validateTimestamps (st : St) (rows : List Row) : PRes Bool :=
  match sessionBarsLoop rows [] with
  | .error msg => .exn st msg
  | .ok m =>
    let p := tsSessionsScan st m
    .ok p.1 p.2

def assocGet {α β : Type} [DecidableEq α] : List (α × β) → α → Option β
  | [], _ => none
  | (a, b) :: rest, k => if a = k then some b else assocGet rest k

/-- Python dict assignment d[k] = v: replace in place or append. -/
def dictSet {α β : Type} [DecidableEq α] : List (α × β) → α → β → List (α × β)
  | [], k, v => [(k, v)]
  | (a, b) :: rest, k, v => if a = k then (k, v) :: rest else (a, b) :: dictSet rest k v

/-- MergePipeline._validate_zone_consistency. -/
def zoneLoop (st : St) (rows : List Row) (zt : List ((String × String) × String)) :
    St × Bool :=
  match rows with
  | [] => (st, true)
  | r :: rest =>
    if rgetD r "event_type" "" ≠ "ENGAGEMENT_FINAL" then zoneLoop st rest zt
    else
      let sid := rgetD r "session_id" ""
      let zid := rgetD r "zone_id" ""
      let ztype := rgetD r "zone_type" ""
      if zid = "" ∨ zid = "-1" then zoneLoop st rest zt
      else
        match assocGet zt (sid, zid) with
        | some t0 =>
          if t0 ≠ ztype then
            ((addError st { error_type := "ZONE_TYPE_INCONSISTENCY", severity := "FATAL",
                            session_id := some sid, column_name := some ("zone_id=" ++ zid),
                            value_a := some t0, value_b := some ztype }).2, false)
          else zoneLoop st rest zt
        | none => zoneLoop st rest (zt ++ [((sid, zid), ztype)])

def validateZoneConsistency (st : St) (rows : List Row) : St × Bool :=
  zoneLoop st rows []

/-- Python x or y on an optional string field: y when x is None or empty. -/
def pyOr (new old : Option String) : Option String :=
  match new with
  | none => old
  | some v => if v = "" then old else some v

/-- row.get(k) or None. -/
def optField (r : Row) (k : String) : Option String := pyOr (rget? r k) none

/-- zone_id = row.get('zone_id', ''); None when it is the '-1' sentinel. -/
def snapZoneId (r : Row) : Option String :=
  let z := rgetD r "zone_id" ""
  if z = "-1" then none else some z

/-- zone_type = row.get('zone_type', ''); None when it is 'NONE'. -/
def snapZoneType (r : Row) : Option String :=
  let z := rgetD r "zone_type" ""
  if z = "NONE" then none else some z

/-- raw_state parsed out of a raw:VALUE message. -/
def rawStateOf (message : String) : Option String :=
  if listStartsWith "raw:".data message.data then some (String.mk (message.data.drop 4))
  else none

/-- MergePipeline._create_context_from_snapshot. -/
def createContextFromSnapshot (r : Row) : ContextRow :=
  { session_id := rgetD r "session_id" "", bar := rgetD r "bar" "",
    session_type := rgetD r "session_type" "", ts := rgetD r "ts" "",
    phase := optField r "phase",
    zone_id_snapshot := snapZoneId r, zone_type_snapshot := snapZoneType r,
    snapshot_message := optField r "message",
    source_rows := 1, has_snapshot := true }

/-- MergePipeline._create_context_from_lock. -/
def createContextFromLock (r : Row) : ContextRow :=
  { session_id := rgetD r "session_id" "", bar := rgetD r "bar" "",
    session_type := rgetD r "session_type" "", ts := rgetD r "ts" "",
    aggression := optField r "aggression", facilitation := optField r "facilitation",
    market_state := optField r "market_state",
    raw_state := rawStateOf (rgetD r "message" ""),
    source_rows := 1, has_lock := true }

def identityConflictError (ctx : ContextRow) (r : Row) : Error :=
  { error_type := "IDENTITY_CONFLICT", severity := "FATAL",
    session_id := some ctx.session_id, bar := some ctx.bar,
    column_name := some "session_type",
    value_a := some ctx.session_type, value_b := some (rgetD r "session_type" "") }

/-- MergePipeline._merge_snapshot_into_context: on a session_type mismatch
the FATAL error is recorded and the context is left untouched; the caller
is not told to halt. -/
def mergeSnapshotIntoContext (st : St) (ctx : ContextRow) (r : Row) : St × ContextRow :=
  if ctx.session_type ≠ rgetD r "session_type" "" then
    ((addError st (identityConflictError ctx r)).2, ctx)
  else
    (st, { ctx with
      phase := pyOr (rget? r "phase") ctx.phase,
      zone_id_snapshot := pyOr (snapZoneId r) ctx.zone_id_snapshot,
      zone_type_snapshot := pyOr (snapZoneType r) ctx.zone_type_snapshot,
      snapshot_message := pyOr (rget? r "message") ctx.snapshot_message,
      source_rows := ctx.source_rows + 1, has_snapshot := true })

/-- MergePipeline._merge_lock_into_context. -/
def mergeLockIntoContext (st : St) (ctx : ContextRow) (r : Row) : St × ContextRow :=
  if ctx.session_type ≠ rgetD r "session_type" "" then
    ((addError st (identityConflictError ctx r)).2, ctx)
  else
    (st, { ctx with
      aggression := pyOr (rget? r "aggression") ctx.aggression,
      facilitation := pyOr (rget? r "facilitation") ctx.facilitation,
      market_state := pyOr (rget? r "market_state") ctx.market_state,
      raw_state := pyOr (rawStateOf (rgetD r "message" "")) ctx.raw_state,
      source_rows := ctx.source_rows + 1, has_lock := true })

/-- MergePipeline._finalize_context. -/
def finalizeContext (st : St) : Option ContextRow → St
  | none => st
  | some ctx =>
    let c := { ctx with context_complete := ctx.has_snapshot && ctx.has_lock }
    { st with contexts := st.contexts ++ [c],
              context_by_session_bar := dictSet st.context_by_session_bar (c.session_id, c.bar) c,
              sum_context_rows := st.sum_context_rows + 1 }

/-- The scan of MergePipeline._lookup_context over the context dict in
insertion order, tracking the best (maximal, first on a tie) bar ≤ the
engagement bar. -/
def lookupLoop (entries : List ((String × String) × ContextRow)) (sid : String)
    (bar : Int) (bestBar : Int) (best : Option ContextRow) :
    Except String (Option ContextRow) :=
  match entries with
  | [] => .ok best
  | (k, ctx) :: rest =>
    if k.1 ≠ sid then lookupLoop rest sid bar bestBar best
    else
      match pyInt? k.2 with
      | none => .error (intErrMsg k.2)
      | some cbi =>
        if cbi ≤ bar ∧ cbi > bestBar then lookupLoop rest sid bar cbi (some ctx)
        else lookupLoop rest sid bar bestBar best

/-- MergePipeline._lookup_context. -/
def lookupContext (st : St) (sid : String) (bar : Int) : Except String (Option ContextRow) :=
  lookupLoop st.context_by_session_bar sid bar (-1) none

def dupEngagementError (session_id bar zone_id : String) : Error :=
  { error_type := "DUPLICATE_ENGAGEMENT", severity := "RECOVERABLE",
    session_id := some session_id, bar := some bar,
    value_a := some ("zone_id=" ++ zone_id) }

def invalidPriceError (session_id bar col : String) : Error :=
  { error_type := "INVALID_ENGAGEMENT_PRICE", severity := "RECOVERABLE",
    session_id := some session_id, bar := some bar, column_name := some col }

def invalidOutcomeError (session_id bar outcome : String) : Error :=
  { error_type := "INVALID_OUTCOME", severity := "RECOVERABLE",
    session_id := some session_id, bar := some bar,
    column_name := some "outcome", value_a := some outcome }

/-- Append an admitted engagement and bump its counter. -/
def appendEngagement (st : St) (e : EngagementRow) : St :=
  { st with engagements := st.engagements ++ [e],
            sum_engagement_rows := st.sum_engagement_rows + 1 }

/-- MergePipeline._process_engagement. -/
def processEngagement (st : St) (r : Row) : PRes Unit :=
  let session_id := rgetD r "session_id" ""
  let bar := rgetD r "bar" ""
  let zone_id := rgetD r "zone_id" ""
  if st.seen_engagements.contains (session_id, bar, zone_id) then
    .ok (addError st (dupEngagementError session_id bar zone_id)).2 ()
  else
    let st0 := { st with seen_engagements := st.seen_engagements ++ [(session_id, bar, zone_id)] }
    let entry_price := rgetD r "entry_price" "0"
    let exit_price := rgetD r "exit_price" "0"
    if pyFloatZero? entry_price = some true then
      .ok (addError st0 (invalidPriceError session_id bar "entry_price")).2 ()
    else if pyFloatZero? exit_price = some true then
      .ok (addError st0 (invalidPriceError session_id bar "exit_price")).2 ()
    else
      let outcome := rgetD r "outcome" ""
      if ¬ VALID_OUTCOMES.contains outcome then
        .ok (addError st0 (invalidOutcomeError session_id bar outcome)).2 ()
      else
        match pyInt? bar with
        | none => .exn st0 (intErrMsg bar)
        | some barInt =>
          match lookupContext st0 session_id barInt with
          | .error msg => .exn st0 msg
          | .ok ctxOpt =>
            let eng0 : EngagementRow :=
              { session_id := session_id, bar := bar, ts := rgetD r "ts" "",
                session_type := rgetD r "session_type" "", zone_id := zone_id,
                zone_type := rgetD r "zone_type" "",
                entry_price := entry_price, exit_price := exit_price,
                bars := rgetD r "bars" "", outcome := outcome,
                escape_vel := rgetD r "escape_vel" "", vol_ratio := rgetD r "vol_ratio" "" }
            match ctxOpt with
            | none =>
              .ok (appendEngagement st0 { eng0 with orphan := true, flags := ["ORPHAN"] }) ()
            | some context =>
              match pyInt? context.bar with
              | none => .exn st0 (intErrMsg context.bar)
              | some cbi =>
                let stale := decide (barInt - cbi > STALENESS_THRESHOLD)
                let eng := { eng0 with
                  context_bar := some context.bar,
                  ctx_aggression := context.aggression,
                  ctx_facilitation := context.facilitation,
                  ctx_market_state := context.market_state,
                  ctx_phase := context.phase,
                  context_stale := some stale,
                  flags := (if stale then ["STALE_CONTEXT"] else []) ++
                           (if context.context_complete then [] else ["PARTIAL_CONTEXT"]) }
                .ok (appendEngagement st0 eng) ()

/-- Loop-local state of MergePipeline._merge. -/
structure MSt where
  current_context : Option ContextRow := none
  current_session_bar : Option (String × String) := none
  snapshot_seen : List (String × String) := []
  lock_seen : List (String × String) := []
deriving DecidableEq, Repr

/-- Outcome of one iteration of the merge loop. -/
inductive StepRes where
  | halt (st : St)
  | cont (st : St) (m : MSt)
  | exn (st : St) (msg : String)
deriving DecidableEq, Repr

def dupContextError (which session_id bar event_type : String) : Error :=
  { error_type := which, severity := "FATAL",
    session_id := some session_id, bar := some bar, event_type := some event_type }

def setAdd (s : List (String × String)) (k : String × String) : List (String × String) :=
  if s.contains k then s else s ++ [k]

/-- Body of the PHASE_SNAPSHOT branch after the duplicate check. -/
def snapshotCore (st : St) (m : MSt) (key : String × String) (r : Row) : StepRes :=
  let m1 := { m with snapshot_seen := setAdd m.snapshot_seen key }
  if m.current_session_bar ≠ some key then
    .cont (finalizeContext st m.current_context)
          { m1 with current_context := some (createContextFromSnapshot r),
                    current_session_bar := some key }
  else
    match m.current_context with
    | some ctx =>
      let p := mergeSnapshotIntoContext st ctx r
      .cont p.1 { m1 with current_context := some p.2 }
    | none => .exn st "AttributeError: NoneType object has no attribute session_type"

/-- Body of the MODE_LOCK branch after the duplicate check. -/
def lockCore (st : St) (m : MSt) (key : String × String) (r : Row) : StepRes :=
  let m1 := { m with lock_seen := setAdd m.lock_seen key }
  if m.current_session_bar ≠ some key then
    .cont (finalizeContext st m.current_context)
          { m1 with current_context := some (createContextFromLock r),
                    current_session_bar := some key }
  else
    match m.current_context with
    | some ctx =>
      let p := mergeLockIntoContext st ctx r
      .cont p.1 { m1 with current_context := some p.2 }
    | none => .exn st "AttributeError: NoneType object has no attribute session_type"

/-- One iteration of the row loop in MergePipeline._merge. -/
def mergeStep (st : St) (m : MSt) (r : Row) : StepRes :=
  let session_id := rgetD r "session_id" ""
  let bar := rgetD r "bar" ""
  let event_type := rgetD r "event_type" ""
  let key := (session_id, bar)
  if event_type = "PHASE_SNAPSHOT" then
    if m.snapshot_seen.contains key then
      let p := addError st (dupContextError "DUPLICATE_CONTEXT_SNAPSHOT" session_id bar event_type)
      if p.1 then .halt p.2 else snapshotCore p.2 m key r
    else snapshotCore st m key r
  else if event_type = "MODE_LOCK" then
    if m.lock_seen.contains key then
      let p := addError st (dupContextError "DUPLICATE_CONTEXT_LOCK" session_id bar event_type)
      if p.1 then .halt p.2 else lockCore p.2 m key r
    else lockCore st m key r
  else if event_type = "ENGAGEMENT_FINAL" then
    let fin : St × MSt :=
      if m.current_session_bar = some key then
        (finalizeContext st m.current_context,
         { m with current_context := none, current_session_bar := none })
      else if m.current_context.isSome then
        (finalizeContext st m.current_context,
         { m with current_context := none, current_session_bar := none })
      else (st, m)
    match processEngagement fin.1 r with
    | .ok st2 _ => .cont st2 fin.2
    | .exn st2 msg => .exn st2 msg
  else .cont st m

/-- The row loop of MergePipeline._merge; a fatal duplicate returns without
finalizing the open accumulator, end of input finalizes it. -/
def mergeLoop (st : St) (m : MSt) (rows : List Row) : PRes Unit :=
  match rows with
  | [] => .ok (finalizeContext st m.current_context) ()
  | r :: rest =>
    match mergeStep st m r with
    | .halt st1 => .ok st1 ()
    | .cont st1 m1 => mergeLoop st1 m1 rest
    | .exn st1 msg => .exn st1 msg

/-- MergePipeline._merge. -/
def merge (st : St) (rows : List Row) : PRes Unit := mergeLoop st {} rows

/-- The except-branch of MergePipeline.run: record INTERNAL_ERROR and
return exit code 2. -/
def internalErrorExit (st : St) (msg : String) : Nat × St :=
  (2, (addError st { error_type := "INTERNAL_ERROR", severity := "FATAL",
                     value_a := some msg }).2)

/-- MergePipeline.run: returns the process exit code and the final state,
which is the state from which the four output files are rendered. -/
def run (inp : Input) : Nat × St :=
  let p0 := loadInput initSt inp
  let st1 := p0.1
  if st1.has_fatal then
    (if st1.sum_fatal_errors > 0 then 2 else 3, st1)
  else
    let p1 := deduplicate st1 p0.2
    match validateSortOrder p1.1 p1.2 with
    | .exn st msg => internalErrorExit st msg
    | .ok st2 okSort =>
      if ¬ okSort then (3, st2)
      else
        match validateTimestamps st2 p1.2 with
        | .exn st msg => internalErrorExit st msg
        | .ok st3 okTs =>
          if ¬ okTs then (2, st3)
          else
            let p2 := validateZoneConsistency st3 p1.2
            if ¬ p2.2 then (2, p2.1)
            else
              match merge p2.1 p1.2 with
              | .exn st msg => internalErrorExit st msg
              | .ok st4 _ =>
                if st4.has_fatal then (2, st4)
                else if st4.has_recoverable then (1, st4)
                else (0, st4)

/-- The exit_code field MergePipeline._write_summary_json stores in
summary.json. -/
def summaryExitCode (st : St) : Nat :=
  if st.has_fatal then 2 else if st.has_recoverable then 1 else 0

/-! ### Concrete inputs used in the theorems -/

/-- The full header the scrapers emit (test_merge_pipeline.py FULL_HEADERS). -/
def fullHeader : List String :=
  ["session_id", "session_type", "ts", "bar", "event_type", "zone_id", "zone_type",
   "entry_price", "exit_price", "bars", "outcome", "escape_vel", "vol_ratio",
   "aggression", "facilitation", "market_state", "phase", "message"]

/-- A row with every column of the full header. -/
def mkRow (sid stype ts bar etype zid ztype ep xp bars outc ev vr agg fac ms ph msg :
    String) : Row :=
  [("session_id", sid), ("session_type", stype), ("ts", ts), ("bar", bar),
   ("event_type", etype), ("zone_id", zid), ("zone_type", ztype),
   ("entry_price", ep), ("exit_price", xp), ("bars", bars), ("outcome", outc),
   ("escape_vel", ev), ("vol_ratio", vr), ("aggression", agg),
   ("facilitation", fac), ("market_state", ms), ("phase", ph), ("message", msg)]

def snapRow (sid bar ts : String) : Row :=
  mkRow sid "GLOBEX" ts bar "PHASE_SNAPSHOT" "3" "VPB_VAL" "0" "0" "0" "" "" "" ""
    "" "" "MARKUP" "snapmsg"

def lockRow (sid bar ts : String) : Row :=
  mkRow sid "GLOBEX" ts bar "MODE_LOCK" "-1" "NONE" "0" "0" "0" "" "" "" "HIGH"
    "GOOD" "TREND" "" "raw:XYZ"

def engRow (sid bar ts : String) : Row :=
  mkRow sid "GLOBEX" ts bar "ENGAGEMENT_FINAL" "3" "VPB_VAL" "6000" "6001" "5" "TEST"
    "0.5" "0.8" "" "" "" "" ""

/-- Snapshot and lock at bar 100, engagement at bar 105, one session. -/
def inputSnapLockEng : Input :=
  { header := some fullHeader,
    rows := [snapRow "1" "100" "2025-01-01 09:00",
             lockRow "1" "100" "2025-01-01 09:00",
             engRow "1" "105" "2025-01-01 09:05"] }

/-- A header that lacks the required session_id column. -/
def inputMissingColumn : Input :=
  { header := some ["session_type", "ts", "bar", "event_type"], rows := [] }

/-- A row with an empty session_id. -/
def inputMissingIdentity : Input :=
  { header := some fullHeader,
    rows := [mkRow "" "GLOBEX" "t" "1" "PHASE_SNAPSHOT" "" "" "" "" "" "" "" "" ""
               "" "" "" ""] }

/-- Two rows out of sort order: bar 2 before bar 1. -/
def inputUnsorted : Input :=
  { header := some fullHeader,
    rows := [snapRow "1" "2" "t1", snapRow "1" "1" "t2"] }

/-- An engagement whose entry_price is a non-numeric string. -/
def inputPriceText : Input :=
  { header := some fullHeader,
    rows := [mkRow "1" "GLOBEX" "t" "100" "ENGAGEMENT_FINAL" "3" "VPB_VAL" "abc"
               "6001" "5" "TEST" "" "" "" "" "" "" ""] }

/-- An engagement with entry_price=0 and no other defect. -/
def inputPriceZero : Input :=
  { header := some fullHeader,
    rows := [mkRow "1" "GLOBEX" "t" "100" "ENGAGEMENT_FINAL" "3" "VPB_VAL" "0"
               "6001" "5" "TEST" "" "" "" "" "" "" ""] }

/-- A snapshot then a lock at the same key with a different session_type,
then a later valid engagement. -/
def inputConflict : Input :=
  { header := some fullHeader,
    rows := [snapRow "1" "100" "t1",
             mkRow "1" "RTH" "t1" "100" "MODE_LOCK" "-1" "NONE" "0" "0" "0" "" ""
               "" "HIGH" "" "" "" "",
             engRow "1" "105" "t2"] }

/-- Context at bar 100 and an engagement at the given bar. -/
def inputCtxThenEng (bar : String) : Input :=
  { header := some fullHeader,
    rows := [snapRow "1" "100" "t1", engRow "1" bar "t2"] }

/-- Rows that the timestamp validator accepts although a timestamp at a
later bar (the lock's a) is lexically below the earlier bar's maximum b:
only the first timestamp listed at bar 2 (the snapshot's c) is checked. -/
def rowsTsGap : List Row :=
  [snapRow "1" "1" "b", snapRow "1" "2" "c", lockRow "1" "2" "a"]

/-- Rows with a genuine first-position inversion at bar 2. -/
def rowsTsBad : List Row :=
  [snapRow "1" "1" "b", snapRow "1" "2" "a"]

/-- The (bar, ts) entries contributed to a session by rows, in input order,
exactly as the grouping pass of _validate_timestamps collects them. -/
def sessionEntries (rows : List Row) (sid : String) : List (Int × String) :=
  rows.filterMap (fun r =>
    if rgetD r "session_id" "" = sid then
      (rowBarInt? r).map (fun b => (b, rgetD r "ts" ""))
    else none)

/-- The claim's rejection condition stated from the specification text: a
violation exists when some row's timestamp is lexically less than the
maximum timestamp recorded at any strictly earlier bar of the same session,
i.e. when some same-session row at a strictly smaller bar carries a
lexically greater timestamp. -/
def claimTimestampViolation (rows : List Row) : Bool :=
  rows.any (fun r =>
    rows.any (fun r2 =>
      (rgetD r2 "session_id" "" == rgetD r "session_id" "") &&
        match rowBarInt? r2, rowBarInt? r with
        | some b2, some b =>
          decide (b2 < b) && pyStrLt (rgetD r "ts" "") (rgetD r2 "ts" "")
        | _, _ => false))

/-- A full input whose only defect is a genuine timestamp inversion. -/
def inputTsBad : Input := { header := some fullHeader, rows := rowsTsBad }

/-! ### Helper lemmas about addError and the loader -/

theorem addError_errors (st : St) (e : Error) :
    (addError st e).2.errors = st.errors ++ [e] := by
  unfold addError; split <;> rfl

theorem addError_fatal (st : St) (e : Error) (h : e.severity = "FATAL") :
    (addError st e).2.has_fatal = true ∧
    (addError st e).2.sum_fatal_errors = st.sum_fatal_errors + 1 := by
  unfold addError; rw [if_pos h]; exact ⟨rfl, rfl⟩

theorem addError_not_fatal (st : St) (e : Error) (h : ¬ e.severity = "FATAL") :
    (addError st e).2.has_fatal = st.has_fatal ∧
    (addError st e).2.sum_fatal_errors = st.sum_fatal_errors ∧
    (addError st e).2.has_recoverable = true := by
  unfold addError; rw [if_neg h]; exact ⟨rfl, rfl, rfl⟩

/-- addError never touches the tables or the dedup structures. -/
theorem addError_frame (st : St) (e : Error) :
    (addError st e).2.engagements = st.engagements ∧
    (addError st e).2.contexts = st.contexts ∧
    (addError st e).2.context_by_session_bar = st.context_by_session_bar ∧
    (addError st e).2.seen_engagements = st.seen_engagements := by
  unfold addError; split <;> exact ⟨rfl, rfl, rfl, rfl⟩

/-- States in which a recorded fatal error implies a positive fatal
counter (true of every state the pipeline builds from initSt). -/
def fatalCounted (st : St) : Prop :=
  st.has_fatal = true → 0 < st.sum_fatal_errors

theorem fatalCounted_init : fatalCounted initSt := by
  intro h; cases h

theorem addError_fatalCounted (st : St) (e : Error) (h : fatalCounted st) :
    fatalCounted (addError st e).2 := by
  unfold addError
  split
  · intro _; simp
  · intro hf; exact h hf

theorem loadLoop_fatalCounted (rows : List Row) :
    ∀ st acc, fatalCounted st → fatalCounted (loadLoop st rows acc).1 := by
  induction rows with
  | nil => intro st acc h; exact h
  | cons r rest ih =>
    intro st acc h
    have h1 : fatalCounted { st with sum_input_rows := st.sum_input_rows + 1 } := h
    unfold loadLoop
    split
    · exact addError_fatalCounted _ _ h1
    · split
      · exact addError_fatalCounted _ _ h1
      · split
        · exact addError_fatalCounted _ _ h1
        · exact ih _ _ h1

theorem loadInput_fatalCounted (inp : Input) :
    fatalCounted (loadInput initSt inp).1 := by
  unfold loadInput
  cases h : inp.header with
  | none => exact loadLoop_fatalCounted _ _ _ fatalCounted_init
  | some hd =>
    simp only []
    split
    · exact loadLoop_fatalCounted _ _ _ fatalCounted_init
    · split
      · exact loadLoop_fatalCounted _ _ _ fatalCounted_init
      · exact addError_fatalCounted _ _ fatalCounted_init

/-- A fatal flag set by the row loop can only come from a MISSING_IDENTITY
error that the loop itself recorded (or was set before). -/
theorem loadLoop_fatal_src (rows : List Row) :
    ∀ st acc, (loadLoop st rows acc).1.has_fatal = true →
      st.has_fatal = true ∨
      ∃ e ∈ (loadLoop st rows acc).1.errors,
        e.error_type = "MISSING_IDENTITY" ∧ e.severity = "FATAL" := by
  induction rows with
  | nil => intro st acc h; exact Or.inl h
  | cons r rest ih =>
    intro st acc
    unfold loadLoop
    split
    · intro _; right
      refine ⟨missingIdentityError "session_id" r, ?_, rfl, rfl⟩
      simp [addError_errors]
    · split
      · intro _; right
        refine ⟨missingIdentityError "bar" r, ?_, rfl, rfl⟩
        simp [addError_errors]
      · split
        · intro _; right
          refine ⟨missingIdentityError "ts" r, ?_, rfl, rfl⟩
          simp [addError_errors]
        · intro h
          exact ih _ _ h

/-- Any error present before the row loop is still present after it. -/
theorem loadLoop_errors_mono (rows : List Row) :
    ∀ st acc, ∃ t, (loadLoop st rows acc).1.errors = st.errors ++ t := by
  induction rows with
  | nil => intro st acc; exact ⟨[], (List.append_nil _).symm⟩
  | cons r rest ih =>
    intro st acc
    unfold loadLoop
    split
    · exact ⟨_, addError_errors _ _⟩
    · split
      · exact ⟨_, addError_errors _ _⟩
      · split
        · exact ⟨_, addError_errors _ _⟩
        · exact ih _ _

/-! ### Theorems -/

/-- A fatal raised while loading always stems from a MISSING_COLUMNS or
MISSING_IDENTITY error recorded in the error list. -/
theorem loadInput_fatal_src (inp : Input)
    (h : (loadInput initSt inp).1.has_fatal = true) :
    ∃ e ∈ (loadInput initSt inp).1.errors,
      (e.error_type = "MISSING_COLUMNS" ∨ e.error_type = "MISSING_IDENTITY") ∧
      e.severity = "FATAL" := by
  have hloop : ∀ rows acc, (loadLoop initSt rows acc).1.has_fatal = true →
      ∃ e ∈ (loadLoop initSt rows acc).1.errors,
        (e.error_type = "MISSING_COLUMNS" ∨ e.error_type = "MISSING_IDENTITY") ∧
        e.severity = "FATAL" := by
    intro rows acc hf
    rcases loadLoop_fatal_src rows initSt acc hf with h0 | ⟨e, he, h1, h2⟩
    · cases h0
    · exact ⟨e, he, Or.inr h1, h2⟩
  revert h
  unfold loadInput
  cases hh : inp.header with
  | none => exact hloop _ _
  | some hd =>
    simp only []
    split
    · exact hloop _ _
    · split
      · exact hloop _ _
      · intro _
        refine ⟨{ error_type := "MISSING_COLUMNS", severity := "FATAL",
                  column_name := some (String.intercalate "," (missingColumns hd)) },
                ?_, Or.inl rfl, rfl⟩
        simp [addError_errors]

/-- C1 (corrected): a FATAL structural load defect (missing required column
or missing identity value) makes the process exit with code 2, not 3: the
load-failure branch of run computes 2 whenever a fatal error was counted,
and its else-3 alternative is unreachable.  The recorded error is a FATAL
MISSING_COLUMNS or MISSING_IDENTITY. -/
theorem load_fatal_exits_two (inp : Input)
    (h : (loadInput initSt inp).1.has_fatal = true) :
    (run inp).1 = 2 ∧
    ∃ e ∈ (loadInput initSt inp).1.errors,
      (e.error_type = "MISSING_COLUMNS" ∨ e.error_type = "MISSING_IDENTITY") ∧
      e.severity = "FATAL" := by
  have hc : 0 < (loadInput initSt inp).1.sum_fatal_errors :=
    loadInput_fatalCounted inp h
  refine ⟨?_, loadInput_fatal_src inp h⟩
  unfold run
  simp [h, hc]

theorem load_fatal_exits_two_witness :
    (loadInput initSt inputMissingColumn).1.has_fatal = true ∧
    (run inputMissingColumn).1 = 2 :=
  ⟨by decide, (load_fatal_exits_two inputMissingColumn (by decide)).1⟩

/-- C1 counterexample: a header lacking session_id (and likewise a row with
an empty session_id) is a FATAL structural load defect, yet the run exits
with code 2, not 3 as claimed. -/
theorem load_fatal_exit_three_cex :
    (run inputMissingColumn).1 = 2 ∧
    (run inputMissingColumn).2.errors.map (fun e => (e.error_type, e.severity)) =
      [("MISSING_COLUMNS", "FATAL")] ∧
    (run inputMissingIdentity).1 = 2 ∧
    (run inputMissingIdentity).2.errors.map (fun e => (e.error_type, e.severity)) =
      [("MISSING_IDENTITY", "FATAL")] := by
  decide

/-- C2 counterexample: an ENGAGEMENT_FINAL row whose entry_price is the
non-numeric string abc passes every check — no INVALID_ENGAGEMENT_PRICE
error is emitted, the row is admitted, and the run exits 0 — contradicting
the claim that a price that does not parse as a nonzero number is dropped. -/
theorem nonnumeric_price_kept_cex :
    (run inputPriceText).1 = 0 ∧
    (run inputPriceText).2.engagements.map (fun e => e.entry_price) = ["abc"] ∧
    (run inputPriceText).2.errors = [] := by
  decide

/-- C4 counterexample: a run halted by UNSORTED_INPUT exits with process
code 3, but the exit_code field written to summary.json is 2. -/
theorem summary_exit_code_mismatch_cex :
    (run inputUnsorted).1 = 3 ∧
    summaryExitCode (run inputUnsorted).2 = 2 ∧
    (run inputUnsorted).2.errors.map (fun e => (e.error_type, e.severity)) =
      [("UNSORTED_INPUT", "FATAL")] := by
  decide

theorem mem_addError_self (st : St) (e : Error) : e ∈ (addError st e).2.errors := by
  rw [addError_errors]
  exact List.mem_append_right _ (List.mem_singleton.mpr rfl)

/-- A sort-order validation failure records a FATAL UNSORTED_INPUT. -/
theorem sortOrderLoop_false (rows : List Row) :
    ∀ st prev st2, sortOrderLoop st rows prev = .ok st2 false →
      st2.has_fatal = true ∧
      ∃ e ∈ st2.errors, e.error_type = "UNSORTED_INPUT" ∧ e.severity = "FATAL" := by
  induction rows with
  | nil =>
    intro st prev st2 h
    cases h
  | cons r rest ih =>
    intro st prev st2
    unfold sortOrderLoop
    split
    · intro h; cases h
    · dsimp only
      split
      · split
        · intro h
          cases h
          exact ⟨(addError_fatal _ _ rfl).1, _, mem_addError_self _ _, rfl, rfl⟩
        · exact ih _ _ _
      · exact ih _ _ _

/-- A timestamp validation failure records a FATAL TIMESTAMP_INVERSION. -/
theorem tsSessionsScan_false (m : List (String × List (Int × String))) :
    ∀ st st2, tsSessionsScan st m = (st2, false) →
      st2.has_fatal = true ∧
      ∃ e ∈ st2.errors, e.error_type = "TIMESTAMP_INVERSION" ∧ e.severity = "FATAL" := by
  induction m with
  | nil =>
    intro st st2 h
    cases h
  | cons p rest ih =>
    intro st st2
    unfold tsSessionsScan
    split
    · intro h
      cases h
      exact ⟨(addError_fatal _ _ rfl).1, _, mem_addError_self _ _, rfl, rfl⟩
    · exact ih _ _

theorem validateTimestamps_false (st : St) (rows : List Row) (st2 : St)
    (h : validateTimestamps st rows = .ok st2 false) :
    st2.has_fatal = true ∧
    ∃ e ∈ st2.errors, e.error_type = "TIMESTAMP_INVERSION" ∧ e.severity = "FATAL" := by
  revert h
  unfold validateTimestamps
  split
  · intro h; cases h
  · intro h
    dsimp only at h
    injection h with h1 h2
    exact tsSessionsScan_false _ _ _ (by rw [← h1, ← h2])

/-- A zone-consistency failure records a FATAL ZONE_TYPE_INCONSISTENCY. -/
theorem zoneLoop_false (rows : List Row) :
    ∀ st zt st2, zoneLoop st rows zt = (st2, false) →
      st2.has_fatal = true ∧
      ∃ e ∈ st2.errors, e.error_type = "ZONE_TYPE_INCONSISTENCY" ∧ e.severity = "FATAL" := by
  induction rows with
  | nil =>
    intro st zt st2 h
    cases h
  | cons r rest ih =>
    intro st zt st2
    unfold zoneLoop
    split
    · exact ih _ _ _
    · dsimp only
      split
      · exact ih _ _ _
      · split
        · split
          · intro h
            cases h
            exact ⟨(addError_fatal _ _ rfl).1, _, mem_addError_self _ _, rfl, rfl⟩
          · exact ih _ _ _
        · exact ih _ _ _

theorem internalErrorExit_facts (st : St) (msg : String) :
    (internalErrorExit st msg).1 = 2 ∧
    summaryExitCode (internalErrorExit st msg).2 = 2 := by
  refine ⟨rfl, ?_⟩
  unfold internalErrorExit summaryExitCode
  rw [(addError_fatal st _ rfl).1]
  rfl

/-- Case analysis of run: either the process exit code agrees with the
summary.json exit_code, or the run was halted by UNSORTED_INPUT, exits 3,
and the summary records 2. -/
theorem run_exit_cases (inp : Input) :
    ((run inp).1 = summaryExitCode (run inp).2 ∧ (run inp).1 ≠ 3) ∨
    ((run inp).1 = 3 ∧ summaryExitCode (run inp).2 = 2 ∧
      ∃ e ∈ (run inp).2.errors,
        e.error_type = "UNSORTED_INPUT" ∧ e.severity = "FATAL") := by
  unfold run
  dsimp only
  split
  · next hfatal =>
    left
    have hc : 0 < (loadInput initSt inp).1.sum_fatal_errors :=
      loadInput_fatalCounted inp hfatal
    rw [if_pos hc]
    simp [summaryExitCode, hfatal]
  · split
    · next st msg heq =>
      left
      have h2 := internalErrorExit_facts st msg
      exact ⟨h2.1.trans h2.2.symm, by rw [h2.1]; decide⟩
    · next st2 okSort heq =>
      split
      · next hns =>
        right
        have hfalse : okSort = false := by
          cases okSort
          · rfl
          · exact absurd rfl hns
        subst hfalse
        obtain ⟨hf, hex⟩ := sortOrderLoop_false _ _ _ _ heq
        exact ⟨rfl, by simp [summaryExitCode, hf], hex⟩
      · next hs =>
        split
        · next st msg heq2 =>
          left
          have h2 := internalErrorExit_facts st msg
          exact ⟨h2.1.trans h2.2.symm, by rw [h2.1]; decide⟩
        · next st3 okTs heq2 =>
          split
          · next hnt =>
            left
            have hfalse : okTs = false := by
              cases okTs
              · rfl
              · exact absurd rfl hnt
            subst hfalse
            obtain ⟨hf, _⟩ := validateTimestamps_false _ _ _ heq2
            simp [summaryExitCode, hf]
          · next ht =>
            split
            · next hnz =>
              left
              have h2 : (validateZoneConsistency st3
                  (deduplicate (loadInput initSt inp).1 (loadInput initSt inp).2).2).2
                  = false := by
                cases hzz : (validateZoneConsistency st3
                    (deduplicate (loadInput initSt inp).1 (loadInput initSt inp).2).2).2
                · rfl
                · exact absurd hzz hnz
              have hp : validateZoneConsistency st3
                  (deduplicate (loadInput initSt inp).1 (loadInput initSt inp).2).2
                  = ((validateZoneConsistency st3
                      (deduplicate (loadInput initSt inp).1 (loadInput initSt inp).2).2).1,
                     false) := by
                rw [← h2]
              obtain ⟨hf, _⟩ := zoneLoop_false _ _ _ _ hp
              simp [summaryExitCode, hf]
            · split
              · next st msg heq3 =>
                left
                have h2 := internalErrorExit_facts st msg
                exact ⟨h2.1.trans h2.2.symm, by rw [h2.1]; decide⟩
              · next st4 u heq3 =>
                left
                by_cases hf : st4.has_fatal = true
                · simp [summaryExitCode, hf]
                · by_cases hr : st4.has_recoverable = true
                  · simp [summaryExitCode, hf, hr]
                  · simp [summaryExitCode, hf, hr]

/-- C4 (corrected): the exit_code recorded in summary.json is computed only
from the severity flags (2 on any fatal, else 1 on any recoverable, else
0); it equals the process exit code on every path except a run halted by
UNSORTED_INPUT, which exits 3 while summary.json records 2. -/
theorem summary_exit_code_amended (inp : Input) :
    ((run inp).1 ≠ 3 → (run inp).1 = summaryExitCode (run inp).2) ∧
    ((run inp).1 = 3 →
      summaryExitCode (run inp).2 = 2 ∧
      ∃ e ∈ (run inp).2.errors,
        e.error_type = "UNSORTED_INPUT" ∧ e.severity = "FATAL") := by
  rcases run_exit_cases inp with ⟨h1, h2⟩ | ⟨h1, h2, h3⟩
  · exact ⟨fun _ => h1, fun h => absurd h h2⟩
  · exact ⟨fun h => absurd h1 h, fun _ => ⟨h2, h3⟩⟩

theorem summary_exit_code_amended_witness :
    ((run inputUnsorted).1 = 3) ∧
    summaryExitCode (run inputUnsorted).2 = 2 :=
  ⟨by decide, ((summary_exit_code_amended inputUnsorted).2 (by decide)).1⟩

/-- C2 (corrected): for an ENGAGEMENT_FINAL row that passed the duplicate
check, a RECOVERABLE INVALID_ENGAGEMENT_PRICE error is emitted and the row
dropped exactly when entry_price or exit_price parses as a float equal to
zero; a price string that does not parse at all (e.g. non-numeric text) is
NOT flagged and the row is not dropped on its account.  In particular the
scenario row with entry_price=0 and no other defect is dropped with that
recoverable error and the run exits 1. -/
theorem invalid_price_amended (st : St) (r : Row)
    (hdup : st.seen_engagements.contains
      (rgetD r "session_id" "", rgetD r "bar" "", rgetD r "zone_id" "") = false) :
    ((∃ st2 col, processEngagement st r = PRes.ok st2 () ∧
        (col = "entry_price" ∨ col = "exit_price") ∧
        st2.engagements = st.engagements ∧
        st2.errors = st.errors ++
          [invalidPriceError (rgetD r "session_id" "") (rgetD r "bar" "") col] ∧
        st2.has_recoverable = true ∧ st2.has_fatal = st.has_fatal)
      ↔ (pyFloatZero? (rgetD r "entry_price" "0") = some true ∨
         pyFloatZero? (rgetD r "exit_price" "0") = some true)) ∧
    (run inputPriceZero).1 = 1 ∧
    (run inputPriceZero).2.engagements = [] ∧
    (run inputPriceZero).2.errors.map (fun e => (e.error_type, e.severity)) =
      [("INVALID_ENGAGEMENT_PRICE", "RECOVERABLE")] := by
  refine ⟨?_, by decide, by decide, by decide⟩
  have hsev : ¬ (invalidPriceError (rgetD r "session_id" "") (rgetD r "bar" "")
      "entry_price").severity = "FATAL" := by
    intro h
    simp [invalidPriceError] at h
  have hsev2 : ¬ (invalidPriceError (rgetD r "session_id" "") (rgetD r "bar" "")
      "exit_price").severity = "FATAL" := by
    intro h
    simp [invalidPriceError] at h
  unfold processEngagement
  simp only [hdup, Bool.false_eq_true, if_false]
  by_cases he : pyFloatZero? (rgetD r "entry_price" "0") = some true
  · rw [if_pos he]
    constructor
    · intro _
      exact Or.inl he
    · intro _
      refine ⟨_, "entry_price", rfl, Or.inl rfl, ?_, ?_, ?_, ?_⟩
      · exact (addError_frame _ _).1
      · exact addError_errors _ _
      · exact (addError_not_fatal _ _ hsev).2.2
      · exact (addError_not_fatal _ _ hsev).1
  · rw [if_neg he]
    by_cases hx : pyFloatZero? (rgetD r "exit_price" "0") = some true
    · rw [if_pos hx]
      constructor
      · intro _
        exact Or.inr hx
      · intro _
        refine ⟨_, "exit_price", rfl, Or.inr rfl, ?_, ?_, ?_, ?_⟩
        · exact (addError_frame _ _).1
        · exact addError_errors _ _
        · exact (addError_not_fatal _ _ hsev2).2.2
        · exact (addError_not_fatal _ _ hsev2).1
    · rw [if_neg hx]
      constructor
      · rintro ⟨st2, col, heq, hcol, heng, herr, hrec, hfat⟩
        exfalso
        have hptype : (invalidPriceError (rgetD r "session_id" "") (rgetD r "bar" "")
            col).error_type = "INVALID_ENGAGEMENT_PRICE" := rfl
        revert heq
        split
        · intro heq
          cases heq
          rw [addError_errors] at herr
          have hcan : [invalidOutcomeError (rgetD r "session_id" "") (rgetD r "bar" "")
              (rgetD r "outcome" "")] =
              [invalidPriceError (rgetD r "session_id" "") (rgetD r "bar" "") col] :=
            List.append_cancel_left herr
          have hinj : invalidOutcomeError (rgetD r "session_id" "") (rgetD r "bar" "")
              (rgetD r "outcome" "") =
              invalidPriceError (rgetD r "session_id" "") (rgetD r "bar" "") col := by
            injection hcan
          have hty := congrArg Error.error_type hinj
          rw [hptype] at hty
          simp [invalidOutcomeError] at hty
        · split
          · intro heq; cases heq
          · split
            · intro heq; cases heq
            · split
              · intro heq
                cases heq
                have hlen := congrArg List.length herr
                simp [appendEngagement] at hlen
              · split
                · intro heq; cases heq
                · intro heq
                  cases heq
                  have hlen := congrArg List.length herr
                  simp [appendEngagement] at hlen
      · intro hor
        rcases hor with h | h
        · exact absurd h he
        · exact absurd h hx

def rowPriceZero : Row :=
  mkRow "1" "GLOBEX" "t" "100" "ENGAGEMENT_FINAL" "3" "VPB_VAL" "0" "6001" "5" "TEST"
    "" "" "" "" "" "" ""

theorem invalid_price_amended_witness :
    pyFloatZero? (rgetD rowPriceZero "entry_price" "0") = some true ∧
    (∃ st2 col, processEngagement initSt rowPriceZero = PRes.ok st2 () ∧
      (col = "entry_price" ∨ col = "exit_price") ∧
      st2.engagements = initSt.engagements ∧
      st2.errors = initSt.errors ++
        [invalidPriceError (rgetD rowPriceZero "session_id" "")
          (rgetD rowPriceZero "bar" "") col] ∧
      st2.has_recoverable = true ∧ st2.has_fatal = initSt.has_fatal) :=
  ⟨by decide,
   ((invalid_price_amended initSt rowPriceZero (by decide)).1).mpr (Or.inl (by decide))⟩

/-- C7: a PHASE_SNAPSHOT or MODE_LOCK merging into the open accumulator
with a mismatched session_type records a FATAL IDENTITY_CONFLICT but the
merge loop continues (the step yields cont, never halt, unlike the
duplicate snapshot/lock checks); on the concrete conflict scenario the
subsequent engagement row is still processed and the run exits 2. -/
theorem identity_conflict_continues :
    (∀ st m r ctx, m.current_context = some ctx →
      m.current_session_bar = some (rgetD r "session_id" "", rgetD r "bar" "") →
      rgetD r "event_type" "" = "PHASE_SNAPSHOT" →
      m.snapshot_seen.contains (rgetD r "session_id" "", rgetD r "bar" "") = false →
      ctx.session_type ≠ rgetD r "session_type" "" →
      ∃ st2 m2, mergeStep st m r = StepRes.cont st2 m2 ∧
        st2.errors = st.errors ++ [identityConflictError ctx r] ∧
        (identityConflictError ctx r).severity = "FATAL" ∧
        st2.has_fatal = true) ∧
    (∀ st m r ctx, m.current_context = some ctx →
      m.current_session_bar = some (rgetD r "session_id" "", rgetD r "bar" "") →
      rgetD r "event_type" "" = "MODE_LOCK" →
      m.lock_seen.contains (rgetD r "session_id" "", rgetD r "bar" "") = false →
      ctx.session_type ≠ rgetD r "session_type" "" →
      ∃ st2 m2, mergeStep st m r = StepRes.cont st2 m2 ∧
        st2.errors = st.errors ++ [identityConflictError ctx r] ∧
        (identityConflictError ctx r).severity = "FATAL" ∧
        st2.has_fatal = true) ∧
    ((run inputConflict).1 = 2 ∧
     (run inputConflict).2.errors.map (fun e => (e.error_type, e.severity)) =
       [("IDENTITY_CONFLICT", "FATAL")] ∧
     (run inputConflict).2.engagements.length = 1) := by
  refine ⟨?_, ?_, by decide, by decide, by decide⟩
  · intro st m r ctx hc hk h3 h4 h5
    have h6 : mergeStep st m r =
        snapshotCore st m (rgetD r "session_id" "", rgetD r "bar" "") r := by
      unfold mergeStep
      rw [h3]
      simp only [reduceIte, h4, Bool.false_eq_true, if_false]
    have h7 : snapshotCore st m (rgetD r "session_id" "", rgetD r "bar" "") r =
        StepRes.cont (mergeSnapshotIntoContext st ctx r).1
          { m with
            snapshot_seen := setAdd m.snapshot_seen (rgetD r "session_id" "", rgetD r "bar" ""),
            current_context := some (mergeSnapshotIntoContext st ctx r).2 } := by
      unfold snapshotCore
      rw [hk]
      simp [hc]
    have h8 : mergeSnapshotIntoContext st ctx r =
        ((addError st (identityConflictError ctx r)).2, ctx) := by
      unfold mergeSnapshotIntoContext
      rw [if_pos h5]
    refine ⟨_, _, h6.trans h7, ?_, rfl, ?_⟩
    · rw [h8]
      exact addError_errors _ _
    · rw [h8]
      exact (addError_fatal _ _ rfl).1
  · intro st m r ctx hc hk h3 h4 h5
    have h6 : mergeStep st m r =
        lockCore st m (rgetD r "session_id" "", rgetD r "bar" "") r := by
      unfold mergeStep
      rw [h3]
      rw [if_neg (by decide : ¬ ("MODE_LOCK" = "PHASE_SNAPSHOT")), if_pos rfl]
      simp only [h4, Bool.false_eq_true, if_false]
    have h7 : lockCore st m (rgetD r "session_id" "", rgetD r "bar" "") r =
        StepRes.cont (mergeLockIntoContext st ctx r).1
          { m with
            lock_seen := setAdd m.lock_seen (rgetD r "session_id" "", rgetD r "bar" ""),
            current_context := some (mergeLockIntoContext st ctx r).2 } := by
      unfold lockCore
      rw [hk]
      simp [hc]
    have h8 : mergeLockIntoContext st ctx r =
        ((addError st (identityConflictError ctx r)).2, ctx) := by
      unfold mergeLockIntoContext
      rw [if_pos h5]
    refine ⟨_, _, h6.trans h7, ?_, rfl, ?_⟩
    · rw [h8]
      exact addError_errors _ _
    · rw [h8]
      exact (addError_fatal _ _ rfl).1

def conflictCtx : ContextRow := createContextFromSnapshot (snapRow "1" "100" "t1")

def conflictLockRow : Row :=
  mkRow "1" "RTH" "t1" "100" "MODE_LOCK" "-1" "NONE" "0" "0" "0" "" "" "" "HIGH"
    "" "" "" ""

def conflictMSt : MSt :=
  { current_context := some conflictCtx,
    current_session_bar := some ("1", "100"),
    snapshot_seen := [("1", "100")], lock_seen := [] }

theorem identity_conflict_continues_witness :
    ∃ st2 m2, mergeStep initSt conflictMSt conflictLockRow = StepRes.cont st2 m2 ∧
      st2.errors = initSt.errors ++ [identityConflictError conflictCtx conflictLockRow] ∧
      (identityConflictError conflictCtx conflictLockRow).severity = "FATAL" ∧
      st2.has_fatal = true :=
  identity_conflict_continues.2.1 initSt conflictMSt conflictLockRow conflictCtx
    (by decide) (by decide) (by decide) (by decide) (by decide)

/-! ### The per-engagement invariant (claims C6 and C9) -/

/-- Well-formedness of the context dict: every entry is stored under the
key (session_id, bar) of the context it holds. -/
def ctxMapWF (entries : List ((String × String) × ContextRow)) : Prop :=
  ∀ k c, (k, c) ∈ entries → k = (c.session_id, c.bar)

/-- The invariant every admitted EngagementRow satisfies: a non-orphan row
carries the fields of a context of the same session whose bar (as an
integer) is at most the engagement bar, with context_stale and the
STALE_CONTEXT/PARTIAL_CONTEXT flags determined by the bar distance and the
context completeness; an orphan row carries the ORPHAN flag and no context
fields. -/
def EngOK (eng : EngagementRow) : Prop :=
  (eng.orphan = false →
    ∃ (ctx : ContextRow) (n k : Int),
      eng.context_bar = some ctx.bar ∧
      ctx.session_id = eng.session_id ∧
      pyInt? eng.bar = some n ∧ pyInt? ctx.bar = some k ∧ k ≤ n ∧
      eng.ctx_aggression = ctx.aggression ∧
      eng.ctx_facilitation = ctx.facilitation ∧
      eng.ctx_market_state = ctx.market_state ∧
      eng.ctx_phase = ctx.phase ∧
      eng.context_stale = some (decide (n - k > STALENESS_THRESHOLD)) ∧
      ("STALE_CONTEXT" ∈ eng.flags ↔ n - k > STALENESS_THRESHOLD) ∧
      ("PARTIAL_CONTEXT" ∈ eng.flags ↔ ctx.context_complete = false) ∧
      "ORPHAN" ∉ eng.flags) ∧
  (eng.orphan = true →
    eng.context_bar = none ∧ eng.context_stale = none ∧
    eng.ctx_aggression = none ∧ eng.ctx_facilitation = none ∧
    eng.ctx_market_state = none ∧ eng.ctx_phase = none ∧
    eng.flags = ["ORPHAN"])

/-- A successful context lookup returns a context of the requested session
whose bar parses and is at most the requested bar. -/
theorem lookupLoop_some (entries : List ((String × String) × ContextRow)) :
    ∀ (sid : String) (bar bb : Int) (best : Option ContextRow) (ctx : ContextRow),
      (∀ k c, (k, c) ∈ entries → k = (c.session_id, c.bar)) →
      (∀ c, best = some c →
        c.session_id = sid ∧ ∃ v, pyInt? c.bar = some v ∧ v ≤ bar) →
      lookupLoop entries sid bar bb best = .ok (some ctx) →
      ctx.session_id = sid ∧ ∃ v, pyInt? ctx.bar = some v ∧ v ≤ bar := by
  induction entries with
  | nil =>
    intro sid bar bb best ctx _ hbest h
    cases h
    exact hbest ctx rfl
  | cons kc rest ih =>
    intro sid bar bb best ctx hwf hbest
    unfold lookupLoop
    split
    · exact ih sid bar bb best ctx (fun k c hm => hwf k c (List.mem_cons_of_mem _ hm)) hbest
    · next hsid =>
      split
      · intro h; cases h
      · next cbi hcb =>
        split
        · next hle =>
          refine ih sid bar cbi (some kc.2) ctx
            (fun k c hm => hwf k c (List.mem_cons_of_mem _ hm)) ?_
          intro c hcc
          cases hcc
          have hk := hwf kc.1 kc.2 (by
            rw [show (kc.1, kc.2) = kc from rfl]
            exact List.mem_cons_self _ _)
          have hsid2 : kc.1.1 = kc.2.session_id := by rw [hk]
          have hbar2 : kc.1.2 = kc.2.bar := by rw [hk]
          constructor
          · rw [← hsid2]
            by_contra hne
            exact hsid hne |>.elim
          · exact ⟨cbi, by rw [← hbar2]; exact hcb, hle.1⟩
        · exact ih sid bar bb best ctx
            (fun k c hm => hwf k c (List.mem_cons_of_mem _ hm)) hbest

theorem lookupContext_some (st : St) (sid : String) (bar : Int) (ctx : ContextRow)
    (hwf : ctxMapWF st.context_by_session_bar)
    (h : lookupContext st sid bar = .ok (some ctx)) :
    ctx.session_id = sid ∧ ∃ v, pyInt? ctx.bar = some v ∧ v ≤ bar :=
  lookupLoop_some st.context_by_session_bar sid bar (-1) none ctx hwf
    (fun _ hc => by cases hc) h

theorem appendEngagement_mem {st : St} {x e : EngagementRow}
    (he : e ∈ (appendEngagement st x).engagements) : e ∈ st.engagements ∨ e = x := by
  unfold appendEngagement at he
  rcases List.mem_append.mp he with h1 | h1
  · exact Or.inl h1
  · exact Or.inr (List.mem_singleton.mp h1)

/-- processEngagement preserves the map well-formedness and the engagement
invariant, in both its normal and its exception outcome. -/
theorem processEngagement_inv (st : St) (r : Row)
    (hwf : ctxMapWF st.context_by_session_bar)
    (hall : ∀ e ∈ st.engagements, EngOK e) :
    (∀ st2 u, processEngagement st r = PRes.ok st2 u →
      ctxMapWF st2.context_by_session_bar ∧ ∀ e ∈ st2.engagements, EngOK e) ∧
    (∀ st2 msg, processEngagement st r = PRes.exn st2 msg →
      ctxMapWF st2.context_by_session_bar ∧ ∀ e ∈ st2.engagements, EngOK e) := by
  have hframe : ∀ e0 : Error,
      ctxMapWF (addError { st with seen_engagements := st.seen_engagements ++
        [(rgetD r "session_id" "", rgetD r "bar" "", rgetD r "zone_id" "")] } e0).2.context_by_session_bar ∧
      ∀ e ∈ (addError { st with seen_engagements := st.seen_engagements ++
        [(rgetD r "session_id" "", rgetD r "bar" "", rgetD r "zone_id" "")] } e0).2.engagements,
        EngOK e := by
    intro e0
    have hf := addError_frame { st with seen_engagements := st.seen_engagements ++
      [(rgetD r "session_id" "", rgetD r "bar" "", rgetD r "zone_id" "")] } e0
    constructor
    · rw [hf.2.2.1]
      exact hwf
    · rw [hf.1]
      exact hall
  have hframe0 : ∀ e0 : Error,
      ctxMapWF (addError st e0).2.context_by_session_bar ∧
      ∀ e ∈ (addError st e0).2.engagements, EngOK e := by
    intro e0
    have hf := addError_frame st e0
    constructor
    · rw [hf.2.2.1]
      exact hwf
    · rw [hf.1]
      exact hall
  constructor
  · intro st2 u
    unfold processEngagement
    dsimp only
    split
    · intro h
      cases h
      exact hframe0 _
    · next hdup =>
      split
      · intro h
        cases h
        exact hframe _
      · split
        · intro h
          cases h
          exact hframe _
        · split
          · intro h
            cases h
            exact hframe _
          · split
            · intro h; cases h
            · next =>
              rename_i barInt hbar
              split
              · intro h; cases h
              · next =>
                rename_i ctxOpt hlook
                split
                · intro h
                  cases h
                  refine ⟨hwf, ?_⟩
                  intro e he
                  rcases appendEngagement_mem he with h1 | h1
                  · exact hall e h1
                  · rw [h1]
                    constructor
                    · intro hfalse
                      cases hfalse
                    · intro _
                      exact ⟨rfl, rfl, rfl, rfl, rfl, rfl, rfl⟩
                · next =>
                  rename_i context
                  split
                  · intro h; cases h
                  · next =>
                    rename_i cbi hcbi
                    intro h
                    cases h
                    refine ⟨hwf, ?_⟩
                    intro e he
                    rcases appendEngagement_mem he with h1 | h1
                    · exact hall e h1
                    · rw [h1]
                      have hlk := lookupContext_some _ _ _ _ hwf hlook
                      obtain ⟨hv, heq⟩ : cbi ≤ barInt ∧ True := by
                        obtain ⟨v, hv1, hv2⟩ := hlk.2
                        rw [hcbi] at hv1
                        cases hv1
                        exact ⟨hv2, trivial⟩
                      constructor
                      · intro _
                        refine ⟨context, barInt, cbi, rfl, hlk.1, hbar, hcbi, hv,
                          rfl, rfl, rfl, rfl, rfl, ?_, ?_, ?_⟩
                        · by_cases hst : barInt - cbi > STALENESS_THRESHOLD
                          · simp [hst]
                          · simp [hst]
                        · by_cases hst : barInt - cbi > STALENESS_THRESHOLD
                          · by_cases hcc : context.context_complete
                            · simp [hst, hcc]
                            · simp [hst, hcc]
                          · by_cases hcc : context.context_complete
                            · simp [hst, hcc]
                            · simp [hst, hcc]
                        · by_cases hst : barInt - cbi > STALENESS_THRESHOLD
                          · by_cases hcc : context.context_complete
                            · simp [hst, hcc]
                            · simp [hst, hcc]
                          · by_cases hcc : context.context_complete
                            · simp [hst, hcc]
                            · simp [hst, hcc]
                      · intro hfalse
                        cases hfalse
  · intro st2 msg
    unfold processEngagement
    dsimp only
    split
    · intro h; cases h
    · split
      · intro h; cases h
      · split
        · intro h; cases h
        · split
          · intro h; cases h
          · split
            · intro h
              cases h
              exact ⟨hwf, hall⟩
            · split
              · intro h
                cases h
                exact ⟨hwf, hall⟩
              · split
                · intro h; cases h
                · split
                  · intro h
                    cases h
                    exact ⟨hwf, hall⟩
                  · intro h; cases h

/-- The state invariant carried through the merge. -/
def StInv (st : St) : Prop :=
  ctxMapWF st.context_by_session_bar ∧ ∀ e ∈ st.engagements, EngOK e

theorem dictSet_WF (entries : List ((String × String) × ContextRow)) (v : ContextRow)
    (h : ctxMapWF entries) :
    ctxMapWF (dictSet entries (v.session_id, v.bar) v) := by
  induction entries with
  | nil =>
    intro k c hm
    rcases List.mem_singleton.mp hm with h2
    rw [Prod.mk.injEq] at h2
    rw [h2.1, ← h2.2]
  | cons ab rest ih =>
    unfold dictSet
    split
    · intro k c hm
      rcases List.mem_cons.mp hm with h2 | h2
      · rw [Prod.mk.injEq] at h2
        rw [h2.1, ← h2.2]
      · exact h k c (List.mem_cons_of_mem _ h2)
    · intro k c hm
      rcases List.mem_cons.mp hm with h2 | h2
      · rw [Prod.mk.injEq] at h2
        rw [h2.1, h2.2]
        exact h ab.1 ab.2 (by
          rw [show (ab.1, ab.2) = ab from rfl]
          exact List.mem_cons_self _ _)
      · exact ih (fun k2 c2 hm2 => h k2 c2 (List.mem_cons_of_mem _ hm2)) k c h2

theorem finalizeContext_WF (st : St) (o : Option ContextRow)
    (h : ctxMapWF st.context_by_session_bar) :
    ctxMapWF (finalizeContext st o).context_by_session_bar := by
  cases o with
  | none => exact h
  | some ctx => exact dictSet_WF st.context_by_session_bar _ h

theorem finalizeContext_eng (st : St) (o : Option ContextRow) :
    (finalizeContext st o).engagements = st.engagements := by
  cases o <;> rfl

theorem finalizeContext_StInv (st : St) (o : Option ContextRow) (h : StInv st) :
    StInv (finalizeContext st o) := by
  refine ⟨finalizeContext_WF st o h.1, ?_⟩
  rw [finalizeContext_eng]
  exact h.2

theorem mergeSnapshotIntoContext_frame (st : St) (ctx : ContextRow) (r : Row) :
    (mergeSnapshotIntoContext st ctx r).1.context_by_session_bar =
      st.context_by_session_bar ∧
    (mergeSnapshotIntoContext st ctx r).1.engagements = st.engagements := by
  unfold mergeSnapshotIntoContext
  split
  · have hf := addError_frame st (identityConflictError ctx r)
    exact ⟨hf.2.2.1, hf.1⟩
  · exact ⟨rfl, rfl⟩

theorem mergeLockIntoContext_frame (st : St) (ctx : ContextRow) (r : Row) :
    (mergeLockIntoContext st ctx r).1.context_by_session_bar =
      st.context_by_session_bar ∧
    (mergeLockIntoContext st ctx r).1.engagements = st.engagements := by
  unfold mergeLockIntoContext
  split
  · have hf := addError_frame st (identityConflictError ctx r)
    exact ⟨hf.2.2.1, hf.1⟩
  · exact ⟨rfl, rfl⟩

theorem snapshotCore_inv (st : St) (m : MSt) (key : String × String) (r : Row)
    (h : StInv st) :
    (∀ st2, snapshotCore st m key r = .halt st2 → StInv st2) ∧
    (∀ st2 m2, snapshotCore st m key r = .cont st2 m2 → StInv st2) ∧
    (∀ st2 msg, snapshotCore st m key r = .exn st2 msg → StInv st2) := by
  unfold snapshotCore
  dsimp only
  refine ⟨?_, ?_, ?_⟩ <;> intro st2
  · split
    · intro h2; cases h2
    · split
      · intro h2; cases h2
      · intro h2; cases h2
  · intro m2
    split
    · intro h2
      cases h2
      exact finalizeContext_StInv st m.current_context h
    · split
      · next ctx heq2 =>
        intro h2
        cases h2
        have hf := mergeSnapshotIntoContext_frame st ctx r
        exact ⟨hf.1 ▸ h.1, hf.2 ▸ h.2⟩
      · intro h2; cases h2
  · intro msg
    split
    · intro h2; cases h2
    · split
      · intro h2; cases h2
      · intro h2
        cases h2
        exact h

theorem lockCore_inv (st : St) (m : MSt) (key : String × String) (r : Row)
    (h : StInv st) :
    (∀ st2, lockCore st m key r = .halt st2 → StInv st2) ∧
    (∀ st2 m2, lockCore st m key r = .cont st2 m2 → StInv st2) ∧
    (∀ st2 msg, lockCore st m key r = .exn st2 msg → StInv st2) := by
  unfold lockCore
  dsimp only
  refine ⟨?_, ?_, ?_⟩ <;> intro st2
  · split
    · intro h2; cases h2
    · split
      · intro h2; cases h2
      · intro h2; cases h2
  · intro m2
    split
    · intro h2
      cases h2
      exact finalizeContext_StInv st m.current_context h
    · split
      · next ctx heq2 =>
        intro h2
        cases h2
        have hf := mergeLockIntoContext_frame st ctx r
        exact ⟨hf.1 ▸ h.1, hf.2 ▸ h.2⟩
      · intro h2; cases h2
  · intro msg
    split
    · intro h2; cases h2
    · split
      · intro h2; cases h2
      · intro h2
        cases h2
        exact h

theorem addError_StInv (st : St) (e : Error) (h : StInv st) :
    StInv (addError st e).2 := by
  have hf := addError_frame st e
  exact ⟨hf.2.2.1 ▸ h.1, hf.1 ▸ h.2⟩

/-- The ENGAGEMENT_FINAL branch of the merge step preserves the
invariant whatever state the pending-context finalization produced. -/
theorem engMatch_inv (stA : St) (mA : MSt) (r : Row) (hA : StInv stA) :
    (∀ st2, (match processEngagement stA r with
        | PRes.ok st2 _ => StepRes.cont st2 mA
        | PRes.exn st2 msg => StepRes.exn st2 msg) = StepRes.halt st2 → StInv st2) ∧
    (∀ st2 m2, (match processEngagement stA r with
        | PRes.ok st2 _ => StepRes.cont st2 mA
        | PRes.exn st2 msg => StepRes.exn st2 msg) = StepRes.cont st2 m2 → StInv st2) ∧
    (∀ st2 msg, (match processEngagement stA r with
        | PRes.ok st2 _ => StepRes.cont st2 mA
        | PRes.exn st2 msg => StepRes.exn st2 msg) = StepRes.exn st2 msg → StInv st2) := by
  have hpe := processEngagement_inv stA r hA.1 hA.2
  cases hres : processEngagement stA r with
  | ok st3 u =>
    refine ⟨?_, ?_, ?_⟩
    · intro st2 h2
      cases h2
    · intro st2 m2 h2
      cases h2
      exact hpe.1 st3 u hres
    · intro st2 msg h2
      cases h2
  | exn st3 msg3 =>
    refine ⟨?_, ?_, ?_⟩
    · intro st2 h2
      cases h2
    · intro st2 m2 h2
      cases h2
    · intro st2 msg h2
      cases h2
      exact hpe.2 st3 msg3 hres

theorem mergeStep_inv (st : St) (m : MSt) (r : Row) (h : StInv st) :
    (∀ st2, mergeStep st m r = .halt st2 → StInv st2) ∧
    (∀ st2 m2, mergeStep st m r = .cont st2 m2 → StInv st2) ∧
    (∀ st2 msg, mergeStep st m r = .exn st2 msg → StInv st2) := by
  unfold mergeStep
  dsimp only
  split
  · split
    · split
      · refine ⟨?_, ?_, ?_⟩
        · intro st2 h2
          cases h2
          exact addError_StInv _ _ h
        · intro st2 m2 h2; cases h2
        · intro st2 msg h2; cases h2
      · exact snapshotCore_inv _ _ _ _ (addError_StInv _ _ h)
    · exact snapshotCore_inv _ _ _ _ h
  · split
    · split
      · split
        · refine ⟨?_, ?_, ?_⟩
          · intro st2 h2
            cases h2
            exact addError_StInv _ _ h
          · intro st2 m2 h2; cases h2
          · intro st2 msg h2; cases h2
        · exact lockCore_inv _ _ _ _ (addError_StInv _ _ h)
      · exact lockCore_inv _ _ _ _ h
    · split
      · by_cases hc1 : m.current_session_bar =
            some (rgetD r "session_id" "", rgetD r "bar" "")
        · simp only [if_pos hc1]
          exact engMatch_inv (finalizeContext st m.current_context) _ r
            (finalizeContext_StInv st m.current_context h)
        · simp only [if_neg hc1]
          by_cases hc2 : m.current_context.isSome = true
          · simp only [hc2, if_true]
            exact engMatch_inv (finalizeContext st m.current_context) _ r
              (finalizeContext_StInv st m.current_context h)
          · simp only [hc2, Bool.false_eq_true, if_false]
            exact engMatch_inv st m r h
      · refine ⟨?_, ?_, ?_⟩
        · intro st2 h2; cases h2
        · intro st2 m2 h2
          cases h2
          exact h
        · intro st2 msg h2; cases h2

theorem mergeLoop_inv (rows : List Row) :
    ∀ st m, StInv st →
      (∀ st2 u, mergeLoop st m rows = .ok st2 u → StInv st2) ∧
      (∀ st2 msg, mergeLoop st m rows = .exn st2 msg → StInv st2) := by
  induction rows with
  | nil =>
    intro st m h
    constructor
    · intro st2 u h2
      cases h2
      exact finalizeContext_StInv st m.current_context h
    · intro st2 msg h2; cases h2
  | cons r rest ih =>
    intro st m h
    have hstep := mergeStep_inv st m r h
    cases hs : mergeStep st m r with
    | halt st3 =>
      constructor
      · intro st2 u h2
        unfold mergeLoop at h2
        rw [hs] at h2
        cases h2
        exact hstep.1 st3 hs
      · intro st2 msg h2
        unfold mergeLoop at h2
        rw [hs] at h2
        cases h2
    | cont st3 m3 =>
      constructor
      · intro st2 u h2
        unfold mergeLoop at h2
        rw [hs] at h2
        exact (ih st3 m3 (hstep.2.1 st3 m3 hs)).1 st2 u h2
      · intro st2 msg h2
        unfold mergeLoop at h2
        rw [hs] at h2
        exact (ih st3 m3 (hstep.2.1 st3 m3 hs)).2 st2 msg h2
    | exn st3 msg3 =>
      constructor
      · intro st2 u h2
        unfold mergeLoop at h2
        rw [hs] at h2
        cases h2
      · intro st2 msg h2
        unfold mergeLoop at h2
        rw [hs] at h2
        cases h2
        exact hstep.2.2 st3 msg3 hs

/-- The context dict and engagement table of the second state are those of
the first: pre-merge phases never touch them. -/
def sameTables (st2 st : St) : Prop :=
  st2.context_by_session_bar = st.context_by_session_bar ∧
  st2.engagements = st.engagements

theorem sameTables_rfl (st : St) : sameTables st st := ⟨rfl, rfl⟩

theorem sameTables_trans {a b c : St} (h1 : sameTables a b) (h2 : sameTables b c) :
    sameTables a c :=
  ⟨h1.1.trans h2.1, h1.2.trans h2.2⟩

theorem addError_sameTables (st : St) (e : Error) : sameTables (addError st e).2 st :=
  ⟨(addError_frame st e).2.2.1, (addError_frame st e).1⟩

theorem loadLoop_tables (rows : List Row) :
    ∀ st acc, sameTables (loadLoop st rows acc).1 st := by
  induction rows with
  | nil => intro st acc; exact sameTables_rfl st
  | cons r rest ih =>
    intro st acc
    unfold loadLoop
    split
    · exact addError_sameTables _ _
    · split
      · exact addError_sameTables _ _
      · split
        · exact addError_sameTables _ _
        · exact ih _ _

theorem loadInput_tables (st : St) (inp : Input) :
    sameTables (loadInput st inp).1 st := by
  unfold loadInput
  split
  · split
    · exact loadLoop_tables _ _ _
    · dsimp only
      split
      · exact loadLoop_tables _ _ _
      · exact addError_sameTables _ _
  · exact loadLoop_tables _ _ _

theorem dedupLog_tables (seen : List (Row × Nat)) :
    ∀ st, sameTables (dedupLog st seen) st := by
  induction seen with
  | nil => intro st; exact sameTables_rfl st
  | cons kc rest ih =>
    intro st
    unfold dedupLog
    split
    · exact sameTables_trans (ih _) (addError_sameTables _ _)
    · exact ih _

theorem deduplicate_tables (st : St) (rows : List Row) :
    sameTables (deduplicate st rows).1 st :=
  dedupLog_tables _ _

theorem sortOrderLoop_tables (rows : List Row) :
    ∀ st prev,
      (∀ st2 b, sortOrderLoop st rows prev = .ok st2 b → sameTables st2 st) ∧
      (∀ st2 msg, sortOrderLoop st rows prev = .exn st2 msg → sameTables st2 st) := by
  induction rows with
  | nil =>
    intro st prev
    constructor
    · intro st2 b h
      cases h
      exact sameTables_rfl st
    · intro st2 msg h
      cases h
  | cons r rest ih =>
    intro st prev
    unfold sortOrderLoop
    split
    · constructor
      · intro st2 b h; cases h
      · intro st2 msg h
        cases h
        exact sameTables_rfl st
    · dsimp only
      split
      · split
        · constructor
          · intro st2 b h
            cases h
            exact addError_sameTables _ _
          · intro st2 msg h; cases h
        · exact ih _ _
      · exact ih _ _

theorem tsSessionsScan_tables (m : List (String × List (Int × String))) :
    ∀ st, sameTables (tsSessionsScan st m).1 st := by
  induction m with
  | nil => intro st; exact sameTables_rfl st
  | cons p rest ih =>
    intro st
    unfold tsSessionsScan
    split
    · exact addError_sameTables _ _
    · exact ih _

theorem validateTimestamps_tables (st : St) (rows : List Row) :
    (∀ st2 b, validateTimestamps st rows = .ok st2 b → sameTables st2 st) ∧
    (∀ st2 msg, validateTimestamps st rows = .exn st2 msg → sameTables st2 st) := by
  unfold validateTimestamps
  split
  · constructor
    · intro st2 b h; cases h
    · intro st2 msg h
      cases h
      exact sameTables_rfl st
  · constructor
    · intro st2 b h
      dsimp only at h
      injection h with h1 h2
      rw [← h1]
      exact tsSessionsScan_tables _ _
    · intro st2 msg h
      cases h

theorem zoneLoop_tables (rows : List Row) :
    ∀ st zt st2 b, zoneLoop st rows zt = (st2, b) → sameTables st2 st := by
  induction rows with
  | nil =>
    intro st zt st2 b h
    cases h
    exact sameTables_rfl st
  | cons r rest ih =>
    intro st zt st2 b
    unfold zoneLoop
    split
    · exact ih _ _ _ _
    · dsimp only
      split
      · exact ih _ _ _ _
      · split
        · split
          · intro h
            cases h
            exact addError_sameTables _ _
          · exact ih _ _ _ _
        · exact ih _ _ _ _

theorem sameTables_StInv {st2 st : St} (h : sameTables st2 st) (hinv : StInv st) :
    StInv st2 := by
  constructor
  · rw [h.1]
    exact hinv.1
  · rw [h.2]
    exact hinv.2

theorem initSt_StInv : StInv initSt := by
  constructor
  · intro k c hm
    cases hm
  · intro e he
    cases he

/-- Zone validation leaves the tables unchanged, so it preserves StInv. -/
theorem sameTablesStInvAux {st : St}
    {rows : List Row} (h : StInv st) :
    StInv (validateZoneConsistency st rows).1 :=
  sameTables_StInv (zoneLoop_tables rows st []
    (validateZoneConsistency st rows).1 (validateZoneConsistency st rows).2 rfl) h

/-- Every engagement row admitted by a full run satisfies the invariant. -/
theorem run_engagements_ok (inp : Input) :
    ∀ eng ∈ (run inp).2.engagements, EngOK eng := by
  have hL : StInv (loadInput initSt inp).1 :=
    sameTables_StInv (loadInput_tables initSt inp) initSt_StInv
  have hD : StInv (deduplicate (loadInput initSt inp).1 (loadInput initSt inp).2).1 :=
    sameTables_StInv (deduplicate_tables _ _) hL
  unfold run
  dsimp only
  split
  · exact hL.2
  · split
    · next st msg heq =>
      exact (addError_StInv _ _ (sameTables_StInv
        ((sortOrderLoop_tables _ _ _).2 st msg heq) hD)).2
    · next st2 okSort heq =>
      have h2 : StInv st2 :=
        sameTables_StInv ((sortOrderLoop_tables _ _ _).1 st2 okSort heq) hD
      split
      · exact h2.2
      · split
        · next st msg heq2 =>
          exact (addError_StInv _ _ (sameTables_StInv
            ((validateTimestamps_tables _ _).2 st msg heq2) h2)).2
        · next st3 okTs heq2 =>
          have h3 : StInv st3 :=
            sameTables_StInv ((validateTimestamps_tables _ _).1 st3 okTs heq2) h2
          split
          · exact h3.2
          · have h4 : StInv (validateZoneConsistency st3
                (deduplicate (loadInput initSt inp).1 (loadInput initSt inp).2).2).1 :=
              sameTablesStInvAux h3
            split
            · exact h4.2
            · split
              · next st msg heq3 =>
                exact (addError_StInv _ _ ((mergeLoop_inv _ _ _ h4).2 st msg heq3)).2
              · next st4 u heq3 =>
                have h5 : StInv st4 := (mergeLoop_inv _ _ _ h4).1 st4 u heq3
                by_cases hf : st4.has_fatal = true
                · simp only [hf, if_true]
                  exact h5.2
                · simp only [hf, Bool.false_eq_true, if_false]
                  by_cases hr : st4.has_recoverable = true
                  · simp only [hr, if_true]
                    exact h5.2
                  · simp only [hr, Bool.false_eq_true, if_false]
                    exact h5.2

/-- C6: for every admitted non-orphan engagement of every run, the
context_stale value equals the strict comparison (engagement.bar −
context.bar) > 50, and the STALE_CONTEXT flag is present exactly when that
comparison holds: a bar distance of exactly 50 is not stale, 51 is. -/
theorem staleness_boundary (inp : Input) (eng : EngagementRow)
    (hm : eng ∈ (run inp).2.engagements) (ho : eng.orphan = false) :
    ∃ n k : Int, pyInt? eng.bar = some n ∧
      (∃ cb, eng.context_bar = some cb ∧ pyInt? cb = some k) ∧
      eng.context_stale = some (decide (n - k > 50)) ∧
      ("STALE_CONTEXT" ∈ eng.flags ↔ n - k > 50) := by
  obtain ⟨ctx, n, k, h1, h2, h3, h4, h5, h6, h7, h8, h9, h10, h11, h12, h13⟩ :=
    (run_engagements_ok inp eng hm).1 ho
  exact ⟨n, k, h3, ⟨ctx.bar, h1, h4⟩, h10, h11⟩

def engStale151 : EngagementRow :=
  { session_id := "1", bar := "151", ts := "t2", session_type := "GLOBEX",
    zone_id := "3", zone_type := "VPB_VAL", entry_price := "6000",
    exit_price := "6001", bars := "5", outcome := "TEST", escape_vel := "0.5",
    vol_ratio := "0.8", context_bar := some "100", context_stale := some true,
    ctx_phase := some "MARKUP", orphan := false,
    flags := ["STALE_CONTEXT", "PARTIAL_CONTEXT"] }

theorem staleness_boundary_witness :
    (∃ n k : Int, pyInt? engStale151.bar = some n ∧
      (∃ cb, engStale151.context_bar = some cb ∧ pyInt? cb = some k) ∧
      engStale151.context_stale = some (decide (n - k > 50)) ∧
      ("STALE_CONTEXT" ∈ engStale151.flags ↔ n - k > 50)) ∧
    (run (inputCtxThenEng "150")).2.engagements.map
      (fun e => (e.context_stale, e.flags)) = [(some false, ["PARTIAL_CONTEXT"])] :=
  ⟨staleness_boundary (inputCtxThenEng "151") engStale151 (by decide) (by decide),
   by decide⟩

/-- C9: every admitted engagement of every run either carries the fields of
an attached context of its own session whose bar is at most its own bar (as
integers), or — when no context preceded it — is an orphan with the ORPHAN
flag and no context fields populated. -/
theorem orphan_context_invariant (inp : Input) (eng : EngagementRow)
    (hm : eng ∈ (run inp).2.engagements) :
    (eng.orphan = false →
      ∃ (ctx : ContextRow) (n k : Int),
        eng.context_bar = some ctx.bar ∧ ctx.session_id = eng.session_id ∧
        pyInt? eng.bar = some n ∧ pyInt? ctx.bar = some k ∧ k ≤ n ∧
        eng.ctx_aggression = ctx.aggression ∧
        eng.ctx_facilitation = ctx.facilitation ∧
        eng.ctx_market_state = ctx.market_state ∧
        eng.ctx_phase = ctx.phase ∧ "ORPHAN" ∉ eng.flags) ∧
    (eng.orphan = true →
      eng.context_bar = none ∧ eng.context_stale = none ∧
      eng.ctx_aggression = none ∧ eng.ctx_facilitation = none ∧
      eng.ctx_market_state = none ∧ eng.ctx_phase = none ∧
      "ORPHAN" ∈ eng.flags) := by
  have h := run_engagements_ok inp eng hm
  constructor
  · intro ho
    obtain ⟨ctx, n, k, h1, h2, h3, h4, h5, h6, h7, h8, h9, h10, h11, h12, h13⟩ :=
      h.1 ho
    exact ⟨ctx, n, k, h1, h2, h3, h4, h5, h6, h7, h8, h9, h13⟩
  · intro ho
    obtain ⟨h1, h2, h3, h4, h5, h6, h7⟩ := h.2 ho
    refine ⟨h1, h2, h3, h4, h5, h6, ?_⟩
    rw [h7]
    exact List.mem_singleton.mpr rfl

def engOrphanAbc : EngagementRow :=
  { session_id := "1", bar := "100", ts := "t", session_type := "GLOBEX",
    zone_id := "3", zone_type := "VPB_VAL", entry_price := "abc",
    exit_price := "6001", bars := "5", outcome := "TEST", escape_vel := "",
    vol_ratio := "", orphan := true, flags := ["ORPHAN"] }

theorem orphan_context_invariant_witness :
    engOrphanAbc.context_bar = none ∧ engOrphanAbc.context_stale = none ∧
    engOrphanAbc.ctx_aggression = none ∧ engOrphanAbc.ctx_facilitation = none ∧
    engOrphanAbc.ctx_market_state = none ∧ engOrphanAbc.ctx_phase = none ∧
    "ORPHAN" ∈ engOrphanAbc.flags :=
  (orphan_context_invariant inputPriceText engOrphanAbc (by decide)).2 (by decide)

/-! ### Deduplicator characterization (claim C8) -/

/-- Membership of a dedup key in a key list. -/
def keyMem : List Row → Row → Bool
  | [], _ => false
  | kd :: rest, k => kd == k || keyMem rest k

/-- Number of occurrences of the dedup key in the row list: the size of
the duplicate group of a row (rows are equal as dicts iff their canonical
rowKey forms are equal). -/
def keyCount (rows : List Row) (k : Row) : Nat :=
  (rows.filter (fun x => rowKey x == k)).length

/-- Specification-side description of the deduplicator output: keep the
first occurrence of each dedup key, in input order. -/
def keepFirstFrom : List Row → List Row → List Row
  | _, [] => []
  | dom, r :: rest =>
    if keyMem dom (rowKey r) then keepFirstFrom dom rest
    else r :: keepFirstFrom (dom ++ [rowKey r]) rest

def keepFirst (rows : List Row) : List Row := keepFirstFrom [] rows

theorem seenHas_keyMem (seen : List (Row × Nat)) (k : Row) :
    seenHas seen k = keyMem (seen.map (fun p => p.1)) k := by
  induction seen with
  | nil => rfl
  | cons p rest ih =>
    unfold seenHas
    rw [ih, List.map_cons]
    rfl

theorem seenBump_keys (seen : List (Row × Nat)) (k : Row) :
    (seenBump seen k).map (fun p => p.1) = seen.map (fun p => p.1) := by
  induction seen with
  | nil => rfl
  | cons p rest ih =>
    unfold seenBump
    split
    · next h => simp [← h]
    · simp [ih]

theorem dedupPass_result (rows : List Row) :
    ∀ (seen : List (Row × Nat)) (acc : List Row),
      (dedupPass seen rows acc).2 =
        acc ++ keepFirstFrom (seen.map (fun p => p.1)) rows := by
  induction rows with
  | nil =>
    intro seen acc
    simp [dedupPass, keepFirstFrom]
  | cons r rest ih =>
    intro seen acc
    unfold dedupPass keepFirstFrom
    dsimp only
    rw [← seenHas_keyMem]
    by_cases h : seenHas seen (rowKey r) = true
    · rw [if_pos h, if_pos h, ih, seenBump_keys]
    · rw [if_neg h, if_neg h, ih]
      simp

theorem keyMem_append (d1 d2 : List Row) (k : Row) :
    keyMem (d1 ++ d2) k = (keyMem d1 k || keyMem d2 k) := by
  induction d1 with
  | nil => rfl
  | cons kd rest ih =>
    show (kd == k || keyMem (rest ++ d2) k) =
      ((kd == k || keyMem rest k) || keyMem d2 k)
    rw [ih, Bool.or_assoc]

theorem keepFirstFrom_not_mem (l : List Row) :
    ∀ dom r2, r2 ∈ keepFirstFrom dom l → keyMem dom (rowKey r2) = false := by
  induction l with
  | nil =>
    intro dom r2 h
    cases h
  | cons r rest ih =>
    intro dom r2
    unfold keepFirstFrom
    split
    · exact ih dom r2
    · next hnm =>
      intro h
      rcases List.mem_cons.mp h with h2 | h2
      · rw [h2]
        simp only [Bool.not_eq_true] at hnm
        exact hnm
      · have h3 := ih _ r2 h2
        rw [keyMem_append] at h3
        exact (Bool.or_eq_false_iff.mp h3).1

theorem keyCount_cons (r : Row) (rest : List Row) (k : Row) :
    keyCount (r :: rest) k =
      (if rowKey r == k then 1 else 0) + keyCount rest k := by
  unfold keyCount
  rw [List.filter_cons]
  split
  · next h => simp [h, Nat.add_comm]
  · next h => simp [h]

theorem keyCount_cons_self (r : Row) (rest : List Row) :
    keyCount (r :: rest) (rowKey r) = 1 + keyCount rest (rowKey r) := by
  rw [keyCount_cons]
  simp

theorem keyCount_cons_ne (r : Row) (rest : List Row) (k : Row)
    (h : ¬ rowKey r = k) :
    keyCount (r :: rest) k = keyCount rest k := by
  rw [keyCount_cons]
  simp [h]

theorem keyMem_false_of_not_mem (dom : List Row) (k : Row) (h : k ∉ dom) :
    keyMem dom k = false := by
  induction dom with
  | nil => rfl
  | cons d ds ih =>
    show (d == k || keyMem ds k) = false
    rw [List.mem_cons, not_or] at h
    rw [ih h.2]
    simp
    intro hc
    exact h.1 hc.symm

theorem seenBump_id (tail : List (Row × Nat)) (k : Row)
    (h : seenHas tail k = false) : seenBump tail k = tail := by
  induction tail with
  | nil => rfl
  | cons q qs ih =>
    unfold seenHas at h
    rcases Bool.or_eq_false_iff.mp h with ⟨h1, h2⟩
    unfold seenBump
    rw [if_neg (by intro hc; rw [hc] at h1; simp at h1)]
    rw [ih h2]

theorem seenBump_map_count (k : Row) (r : Row) (rest : List Row)
    (hr : rowKey r = k) :
    ∀ seen : List (Row × Nat), (seen.map (fun p => p.1)).Nodup →
      seenHas seen k = true →
      (seenBump seen k).map (fun p => (p.1, p.2 + keyCount rest p.1)) =
        seen.map (fun p => (p.1, p.2 + keyCount (r :: rest) p.1)) := by
  intro seen
  induction seen with
  | nil =>
    intro _ hh
    cases hh
  | cons p tail ih =>
    intro hnd hh
    have hnd2 := List.nodup_cons.mp hnd
    unfold seenBump
    split
    · next heq =>
      have hbump : seenBump tail k = tail := by
        apply seenBump_id
        rw [seenHas_keyMem]
        apply keyMem_false_of_not_mem
        rw [← heq]
        exact hnd2.1
      have htail : List.map (fun p => (p.1, p.2 + keyCount rest p.1)) tail =
          List.map (fun p => (p.1, p.2 + keyCount (r :: rest) p.1)) tail := by
        apply List.map_congr_left
        intro q hq
        have hne : ¬ rowKey r = q.1 := by
          intro hcontra
          exact hnd2.1 (List.mem_map.mpr ⟨q, hq, by
            show q.1 = p.1
            rw [← hcontra, hr, heq]⟩)
        rw [keyCount_cons_ne r rest q.1 hne]
      rw [List.map_cons, List.map_cons, htail]
      congr 1
      have hcnt : keyCount (r :: rest) p.1 = 1 + keyCount rest p.1 := by
        rw [heq, ← hr]
        exact keyCount_cons_self r rest
      rw [hcnt, ← Nat.add_assoc]
    · next hne =>
      have hh2 : seenHas tail k = true := by
        unfold seenHas at hh
        simp only [Bool.or_eq_true] at hh
        rcases hh with h1 | h1
        · exact absurd (eq_of_beq h1) hne
        · exact h1
      rw [List.map_cons, List.map_cons, ih hnd2.2 hh2]
      congr 1
      have hne2 : ¬ rowKey r = p.1 := fun hc => hne (hc ▸ hr)
      rw [keyCount_cons_ne r rest p.1 hne2]

theorem keyMem_of_mem (dom : List Row) (k : Row) (h : k ∈ dom) :
    keyMem dom k = true := by
  induction dom with
  | nil => cases h
  | cons d ds ih =>
    show (d == k || keyMem ds k) = true
    rcases List.mem_cons.mp h with h1 | h1
    · rw [h1]
      simp
    · rw [ih h1]
      simp

theorem not_mem_of_keyMem_false (dom : List Row) (k : Row)
    (h : keyMem dom k = false) : k ∉ dom := by
  intro hmem
  rw [keyMem_of_mem dom k hmem] at h
  cases h

/-- The counts dict built by the first deduplication pass holds, in
first-occurrence order, one entry per distinct dedup key with its total
occurrence count. -/
theorem dedupPass_seen (rows : List Row) :
    ∀ (seen : List (Row × Nat)) (acc : List Row),
      (seen.map (fun p => p.1)).Nodup →
      (dedupPass seen rows acc).1 =
        seen.map (fun p => (p.1, p.2 + keyCount rows p.1)) ++
        (keepFirstFrom (seen.map (fun p => p.1)) rows).map
          (fun r => (rowKey r, keyCount rows (rowKey r))) := by
  induction rows with
  | nil =>
    intro seen acc _
    show seen = _
    rw [show keepFirstFrom (seen.map (fun p => p.1)) [] = [] from rfl]
    rw [List.map_nil, List.append_nil]
    conv_lhs => rw [show seen = seen.map (fun p => p) from (List.map_id _).symm]
    apply List.map_congr_left
    intro p _
    show p = (p.1, p.2 + keyCount [] p.1)
    rw [show keyCount [] p.1 = 0 from rfl]
    rfl

  | cons r rest ih =>
    intro seen acc hnd
    unfold dedupPass keepFirstFrom
    dsimp only
    rw [← seenHas_keyMem]
    by_cases h : seenHas seen (rowKey r) = true
    · rw [if_pos h, if_pos h]
      rw [ih (seenBump seen (rowKey r)) acc (by rw [seenBump_keys]; exact hnd)]
      rw [seenBump_keys]
      rw [seenBump_map_count (rowKey r) r rest rfl seen hnd h]
      congr 1
      apply List.map_congr_left
      intro r2 hr2
      have hnm := keepFirstFrom_not_mem rest _ r2 hr2
      have hne : ¬ rowKey r = rowKey r2 := by
        intro hc
        rw [seenHas_keyMem] at h
        rw [← hc] at hnm
        rw [h] at hnm
        cases hnm
      rw [keyCount_cons_ne r rest (rowKey r2) hne]
    · rw [if_neg h, if_neg h]
      have hkm : keyMem (seen.map (fun p => p.1)) (rowKey r) = false := by
        rw [← seenHas_keyMem]
        cases hx : seenHas seen (rowKey r)
        · rfl
        · exact absurd hx h
      have hnotin : rowKey r ∉ seen.map (fun p => p.1) :=
        not_mem_of_keyMem_false _ _ hkm
      have hnd2 : ((seen ++ [(rowKey r, 1)]).map (fun (p : Row × Nat) => p.1)).Nodup := by
        rw [List.map_append]
        rw [List.nodup_append]
        refine ⟨hnd, List.nodup_singleton _, ?_⟩
        intro a ha hb
        rw [show (List.map (fun (p : Row × Nat) => p.1) [(rowKey r, 1)]) = [rowKey r] from rfl]
          at hb
        rw [List.mem_singleton.mp hb] at ha
        exact hnotin ha
      rw [ih (seen ++ [(rowKey r, 1)]) (acc ++ [r]) hnd2]
      rw [List.map_append, List.map_append]
      rw [show (List.map (fun (p : Row × Nat) => p.1) [(rowKey r, 1)]) = [rowKey r] from rfl]
      rw [List.map_cons]
      have hseen : seen.map (fun p => (p.1, p.2 + keyCount rest p.1)) =
          seen.map (fun p => (p.1, p.2 + keyCount (r :: rest) p.1)) := by
        apply List.map_congr_left
        intro p hp
        have hne : ¬ rowKey r = p.1 := by
          intro hc
          have hp1 : p.1 ∈ seen.map (fun p => p.1) :=
            List.mem_map.mpr ⟨p, hp, rfl⟩
          rw [← hc] at hp1
          exact hnotin hp1
        rw [keyCount_cons_ne r rest p.1 hne]
      have hhead : ((rowKey r, 1 + keyCount rest (rowKey r)) : Row × Nat) =
          (rowKey r, keyCount (r :: rest) (rowKey r)) := by
        rw [keyCount_cons_self]
      have htail : (keepFirstFrom (seen.map (fun p => p.1) ++ [rowKey r]) rest).map
            (fun r2 => (rowKey r2, keyCount rest (rowKey r2))) =
          (keepFirstFrom (seen.map (fun p => p.1) ++ [rowKey r]) rest).map
            (fun r2 => (rowKey r2, keyCount (r :: rest) (rowKey r2))) := by
        apply List.map_congr_left
        intro r2 hr2
        have hnm := keepFirstFrom_not_mem rest _ r2 hr2
        rw [keyMem_append] at hnm
        rcases Bool.or_eq_false_iff.mp hnm with ⟨_, hnm2⟩
        have hne : ¬ rowKey r = rowKey r2 := by
          intro hc
          rw [show keyMem [rowKey r] (rowKey r2) =
            (rowKey r == rowKey r2 || false) from rfl] at hnm2
          rw [hc] at hnm2
          simp at hnm2
        rw [keyCount_cons_ne r rest (rowKey r2) hne]
      rw [hseen]
      rw [List.map_cons]
      rw [← hhead, ← htail]
      dsimp only
      simp

/-- The logging pass appends one RECOVERABLE DUPLICATE_ROW error per entry
with count above 1 and adds count-1 per entry to the dropped counter. -/
theorem dedupLog_spec (seen : List (Row × Nat)) :
    ∀ st, (dedupLog st seen).errors = st.errors ++ seen.filterMap
        (fun p => if 1 < p.2 then some (dupRowError p.1 p.2) else none) ∧
      (dedupLog st seen).sum_duplicate_rows_dropped =
        st.sum_duplicate_rows_dropped + (seen.map (fun p => p.2 - 1)).sum ∧
      (dedupLog st seen).has_fatal = st.has_fatal := by
  induction seen with
  | nil =>
    intro st
    refine ⟨by simp [dedupLog], by simp [dedupLog], rfl⟩
  | cons p rest ih =>
    intro st
    unfold dedupLog
    split
    · next hgt =>
      obtain ⟨ih1, ih2, ih3⟩ := ih _
      have hsev : ¬ (dupRowError p.1 p.2).severity = "FATAL" := by
        intro hc
        simp [dupRowError] at hc
      refine ⟨?_, ?_, ?_⟩
      · rw [ih1]
        rw [show ({ (addError st (dupRowError p.1 p.2)).2 with
            sum_duplicate_rows_dropped :=
              (addError st (dupRowError p.1 p.2)).2.sum_duplicate_rows_dropped +
                (p.2 - 1) } : St).errors =
          (addError st (dupRowError p.1 p.2)).2.errors from rfl]
        rw [addError_errors]
        rw [List.filterMap_cons]
        rw [if_pos hgt]
        rw [List.append_assoc]
        rfl
      · rw [ih2]
        rw [show ({ (addError st (dupRowError p.1 p.2)).2 with
            sum_duplicate_rows_dropped :=
              (addError st (dupRowError p.1 p.2)).2.sum_duplicate_rows_dropped +
                (p.2 - 1) } : St).sum_duplicate_rows_dropped =
          (addError st (dupRowError p.1 p.2)).2.sum_duplicate_rows_dropped +
            (p.2 - 1) from rfl]
        rw [show (addError st (dupRowError p.1 p.2)).2.sum_duplicate_rows_dropped =
          st.sum_duplicate_rows_dropped from by
            unfold addError
            rw [if_neg hsev]]
        rw [List.map_cons, List.sum_cons, Nat.add_assoc]
      · rw [ih3]
        rw [show ({ (addError st (dupRowError p.1 p.2)).2 with
            sum_duplicate_rows_dropped :=
              (addError st (dupRowError p.1 p.2)).2.sum_duplicate_rows_dropped +
                (p.2 - 1) } : St).has_fatal =
          (addError st (dupRowError p.1 p.2)).2.has_fatal from rfl]
        exact (addError_not_fatal st _ hsev).1
    · next hle =>
      obtain ⟨ih1, ih2, ih3⟩ := ih st
      have hz : p.2 - 1 = 0 := by omega
      refine ⟨?_, ?_, ih3⟩
      · rw [ih1, List.filterMap_cons, if_neg hle]
      · rw [ih2, List.map_cons, List.sum_cons, hz, Nat.zero_add]

/-- C8: the deduplicator keeps exactly the first occurrence of each row (as
a dict of column values) in input order; it appends, in first-occurrence
order, one RECOVERABLE DUPLICATE_ROW error with the occurrence count for
each group of size above 1; it adds count-1 per group to
duplicate_rows_dropped; and it never records a fatal error. -/
theorem deduplicate_spec (st : St) (rows : List Row) :
    (deduplicate st rows).2 = keepFirst rows ∧
    (deduplicate st rows).1.errors = st.errors ++
      (keepFirst rows).filterMap (fun r =>
        if 1 < keyCount rows (rowKey r) then
          some (dupRowError (rowKey r) (keyCount rows (rowKey r))) else none) ∧
    (deduplicate st rows).1.sum_duplicate_rows_dropped =
      st.sum_duplicate_rows_dropped +
      ((keepFirst rows).map (fun r => keyCount rows (rowKey r) - 1)).sum ∧
    (deduplicate st rows).1.has_fatal = st.has_fatal := by
  have hres : (dedupPass [] rows []).2 = keepFirst rows := by
    rw [dedupPass_result rows [] []]
    rfl
  have hseen : (dedupPass [] rows []).1 =
      (keepFirst rows).map (fun r => (rowKey r, keyCount rows (rowKey r))) := by
    rw [dedupPass_seen rows [] [] List.nodup_nil]
    rfl
  obtain ⟨h1, h2, h3⟩ := dedupLog_spec (dedupPass [] rows []).1 st
  refine ⟨hres, ?_, ?_, h3⟩
  · rw [show (deduplicate st rows).1 = dedupLog st (dedupPass [] rows []).1 from rfl]
    rw [h1, hseen, List.filterMap_map]
    rfl
  · rw [show (deduplicate st rows).1 = dedupLog st (dedupPass [] rows []).1 from rfl]
    rw [h2, hseen, List.map_map]
    rfl

/-! ### Order facts about the Python string comparison (for claim C3) -/

theorem charsLt_irrefl (l : List Char) : charsLt l l = false := by
  induction l with
  | nil => rfl
  | cons a rest ih =>
    unfold charsLt
    rw [if_pos rfl]
    exact ih

theorem pyStrLt_irrefl (a : String) : pyStrLt a a = false :=
  charsLt_irrefl a.data

theorem charsLt_trans (l1 : List Char) :
    ∀ l2 l3, charsLt l1 l2 = true → charsLt l2 l3 = true → charsLt l1 l3 = true := by
  induction l1 with
  | nil =>
    intro l2 l3 h1 h2
    cases l2 with
    | nil => cases h1
    | cons b bs =>
      cases l3 with
      | nil => cases h2
      | cons c cs => rfl
  | cons a as2 ih =>
    intro l2 l3 h1 h2
    cases l2 with
    | nil => cases h1
    | cons b bs =>
      cases l3 with
      | nil => cases h2
      | cons c cs =>
        unfold charsLt at h1 h2 ⊢
        by_cases hab : a = b
        · rw [if_pos hab] at h1
          by_cases hbc : b = c
          · rw [if_pos hbc] at h2
            rw [if_pos (hab.trans hbc)]
            exact ih bs cs h1 h2
          · rw [if_neg hbc] at h2
            rw [hab]
            rw [if_neg hbc]
            exact h2
        · rw [if_neg hab] at h1
          by_cases hbc : b = c
          · rw [← hbc]
            rw [if_neg hab]
            exact h1
          · rw [if_neg hbc] at h2
            have hac : a < c := lt_trans (of_decide_eq_true h1) (of_decide_eq_true h2)
            have hne : ¬ a = c := ne_of_lt hac
            rw [if_neg hne]
            exact decide_eq_true hac

theorem pyStrLt_trans {a b c : String} (h1 : pyStrLt a b = true)
    (h2 : pyStrLt b c = true) : pyStrLt a c = true :=
  charsLt_trans a.data b.data c.data h1 h2

theorem charsLt_total (l1 : List Char) :
    ∀ l2, charsLt l1 l2 = false → charsLt l2 l1 = true ∨ l1 = l2 := by
  induction l1 with
  | nil =>
    intro l2 h
    cases l2 with
    | nil => exact Or.inr rfl
    | cons b bs => cases h
  | cons a as2 ih =>
    intro l2 h
    cases l2 with
    | nil => exact Or.inl rfl
    | cons b bs =>
      unfold charsLt at h ⊢
      by_cases hab : a = b
      · rw [if_pos hab] at h
        rw [if_pos hab.symm]
        rcases ih bs h with h2 | h2
        · exact Or.inl h2
        · exact Or.inr (by rw [hab, h2])
      · rw [if_neg hab] at h
        have hba : b < a := by
          rcases lt_or_ge a b with h3 | h3
          · rw [decide_eq_true h3] at h
            cases h
          · rcases lt_or_eq_of_le h3 with h4 | h4
            · exact h4
            · exact absurd h4 (fun hc => hab hc.symm)
        rw [if_neg (fun hc => hab hc.symm)]
        exact Or.inl (decide_eq_true hba)

theorem pyStrLt_total {a b : String} (h : pyStrLt a b = false) :
    pyStrLt b a = true ∨ a = b := by
  rcases charsLt_total a.data b.data h with h2 | h2
  · exact Or.inl h2
  · refine Or.inr ?_
    cases a
    cases b
    cases h2
    rfl

/-- The truthiness guard in the scanner equals a plain string max. -/
theorem tsScan_max_eq (pt ts : String) :
    (if pt = "" then ts else strMax pt ts) = strMax pt ts := by
  by_cases h : pt = ""
  · rw [if_pos h, h]
    unfold strMax
    by_cases h2 : pyStrLt "" ts = true
    · rw [if_pos h2]
    · rw [if_neg h2]
      rcases pyStrLt_total (by
        cases h3 : pyStrLt "" ts
        · rfl
        · exact absurd h3 h2) with h3 | h3
      · cases ts with
        | mk d =>
          cases d with
          | nil => rfl
          | cons c cs => cases h3
      · exact h3.symm
  · rw [if_neg h]

theorem strMax_not_lt_left (x z : String) : pyStrLt (strMax x z) x = false := by
  unfold strMax
  by_cases h : pyStrLt x z = true
  · rw [if_pos h]
    cases h2 : pyStrLt z x
    · rfl
    · exact absurd (pyStrLt_trans h h2) (by rw [pyStrLt_irrefl]; exact fun hc => Bool.noConfusion hc)
  · rw [if_neg h]
    exact pyStrLt_irrefl x

theorem strMax_not_lt_right (x z : String) : pyStrLt (strMax x z) z = false := by
  unfold strMax
  by_cases h : pyStrLt x z = true
  · rw [if_pos h]
    exact pyStrLt_irrefl z
  · rw [if_neg h]
    cases h2 : pyStrLt x z
    · rfl
    · exact absurd h2 h

/-- Anything not above x is not above the max of x and z either. -/
theorem not_lt_strMax_dominate {x y : String} (z : String)
    (h : pyStrLt x y = false) : pyStrLt (strMax x z) y = false := by
  unfold strMax
  by_cases h2 : pyStrLt x z = true
  · rw [if_pos h2]
    cases h3 : pyStrLt z y
    · rfl
    · have := pyStrLt_trans h2 h3
      rw [this] at h
      cases h
  · rw [if_neg h2]
    exact h

/-- Amended acceptance predicate for the timestamp validator, on a
per-session entry list sorted by bar: every entry that is the first one
listed at its bar is not lexically below any timestamp at a smaller bar.
(Entries listed later at an already-seen bar are exempt: the scanner only
feeds them into the running maximum.) -/
def specSortedOK (s : List (Int × String)) : Prop :=
  ∀ l1 b ts l2, s = l1 ++ (b, ts) :: l2 →
    (∀ e ∈ l1, e.1 ≠ b) →
    ∀ e ∈ l1, e.1 < b → pyStrLt ts e.2 = false

theorem specSortedOK_nil : specSortedOK [] := by
  intro l1 b ts l2 h
  exact absurd h.symm (List.append_ne_nil_of_right_ne_nil l1 (List.cons_ne_nil _ _))

theorem specSortedOK_singleton (e : Int × String) : specSortedOK [e] := by
  intro l1 b ts l2 h hpre e2 he2
  cases l1 with
  | nil => cases he2
  | cons a l1 =>
    rw [List.cons_append] at h
    injection h with h1 h2
    exact absurd h2.symm
      (List.append_ne_nil_of_right_ne_nil l1 (List.cons_ne_nil _ _))

theorem append_singleton_decomp {α : Type} (s l1 l2 : List α) (x e : α)
    (h : l1 ++ x :: l2 = s ++ [e]) :
    (l1 = s ∧ x = e ∧ l2 = []) ∨
    (∃ l2x, l2 = l2x ++ [e] ∧ s = l1 ++ x :: l2x) := by
  rcases List.eq_nil_or_concat l2 with h2 | ⟨l2x, a, h2⟩
  · subst h2
    obtain ⟨h4, h5⟩ := List.append_inj' h rfl
    injection h5 with h6 _
    exact Or.inl ⟨h4, h6, rfl⟩
  · subst h2
    right
    have h3 : (l1 ++ x :: l2x) ++ [a] = s ++ [e] := by
      rw [← h]
      simp
    obtain ⟨h4, h5⟩ := List.append_inj' h3 rfl
    injection h5 with h6 _
    exact ⟨l2x, by rw [h6, List.concat_eq_append], h4.symm⟩

/-- Add a last entry to an accepted prefix. -/
theorem specSortedOK_snoc (s : List (Int × String)) (b : Int) (ts : String)
    (h1 : specSortedOK s)
    (h2 : (∀ e ∈ s, e.1 ≠ b) → ∀ e ∈ s, e.1 < b → pyStrLt ts e.2 = false) :
    specSortedOK (s ++ [(b, ts)]) := by
  intro l1 b2 ts2 l2 hdec hpre e he hlt
  rcases append_singleton_decomp s l1 l2 (b2, ts2) (b, ts) hdec.symm with
    ⟨hl1, hx, _⟩ | ⟨l2x, _, hs⟩
  · injection hx with hb hts
    subst hl1
    subst hb
    subst hts
    exact h2 hpre e he hlt
  · exact h1 l1 b2 ts2 l2x hs hpre e he hlt

/-- Generalized characterization of the per-session scan: carrying a
history whose last bar group realizes the running (bar, max-ts) state, the
scan accepts the remainder exactly when the whole list satisfies the
amended predicate. -/
theorem tsScan_iff (s : List (Int × String)) :
    ∀ hist pb pt,
      List.Pairwise (fun a b => a.1 ≤ b.1) (hist ++ s) →
      (∃ e ∈ hist, e.1 = pb ∧ e.2 = pt) →
      (∀ e ∈ hist, e.1 ≤ pb) →
      (∀ e ∈ hist, pyStrLt pt e.2 = false) →
      specSortedOK hist →
      (tsScan s (some (pb, pt)) = none ↔ specSortedOK (hist ++ s)) := by
  induction s with
  | nil =>
    intro hist pb pt _ _ _ _ h5
    rw [List.append_nil]
    exact iff_of_true rfl h5
  | cons e rest ih =>
    obtain ⟨b, ts⟩ := e
    intro hist pb pt hsort hatt hle hdom hok
    obtain ⟨e0, he0, he0b, he0t⟩ := hatt
    have hpb_le : pb ≤ b := by
      rw [← he0b]
      exact (List.pairwise_append.mp hsort).2.2 e0 he0 (b, ts)
        (List.mem_cons_self _ _)
    unfold tsScan
    by_cases hviol : b > pb ∧ pyStrLt ts pt = true
    · rw [if_pos hviol]
      apply iff_of_false
      · intro hc
        cases hc
      · intro hc
        have hpre : ∀ e ∈ hist, e.1 ≠ b := by
          intro e2 he2
          exact ne_of_lt (lt_of_le_of_lt (hle e2 he2) hviol.1)
        have := hc hist b ts rest rfl hpre e0 he0 (by rw [he0b]; exact hviol.1)
        rw [he0t] at this
        rw [hviol.2] at this
        cases this
    · rw [if_neg hviol]
      by_cases heq : pb = b
      · rw [if_pos heq]
        rw [tsScan_max_eq]
        have hdom2 : ∀ e2 ∈ hist ++ [(b, ts)],
            pyStrLt (strMax pt ts) e2.2 = false := by
          intro e2 he2
          rcases List.mem_append.mp he2 with h2 | h2
          · exact not_lt_strMax_dominate ts (hdom e2 h2)
          · rw [List.mem_singleton.mp h2]
            exact strMax_not_lt_right pt ts
        have hatt2 : ∃ e2 ∈ hist ++ [(b, ts)], e2.1 = pb ∧ e2.2 = strMax pt ts := by
          unfold strMax
          by_cases h2 : pyStrLt pt ts = true
          · rw [if_pos h2]
            exact ⟨(b, ts), List.mem_append_right _ (List.mem_singleton.mpr rfl),
              heq.symm, rfl⟩
          · rw [if_neg h2]
            exact ⟨e0, List.mem_append_left _ he0, he0b, he0t⟩
        have hle2 : ∀ e2 ∈ hist ++ [(b, ts)], e2.1 ≤ pb := by
          intro e2 he2
          rcases List.mem_append.mp he2 with h2 | h2
          · exact hle e2 h2
          · rw [List.mem_singleton.mp h2]
            exact le_of_eq heq.symm
        have hok2 : specSortedOK (hist ++ [(b, ts)]) := by
          apply specSortedOK_snoc hist b ts hok
          intro hpre
          exact absurd (by rw [he0b, heq] : e0.1 = b) (hpre e0 he0)
        have hsort2 : List.Pairwise (fun a b => a.1 ≤ b.1)
            ((hist ++ [(b, ts)]) ++ rest) := by
          rw [List.append_assoc]
          exact hsort
        have := ih (hist ++ [(b, ts)]) pb (strMax pt ts) hsort2 hatt2 hle2 hdom2 hok2
        rw [List.append_assoc] at this
        exact this
      · rw [if_neg heq]
        have hblt : pb < b := lt_of_le_of_ne hpb_le heq
        have hnotlt : pyStrLt ts pt = false := by
          cases h2 : pyStrLt ts pt
          · rfl
          · exact absurd ⟨hblt, h2⟩ hviol
        have hdomts : ∀ e2 ∈ hist, pyStrLt ts e2.2 = false := by
          intro e2 he2
          cases h4 : pyStrLt ts e2.2
          · rfl
          · exfalso
            have h5 := hdom e2 he2
            rcases pyStrLt_total hnotlt with h3 | h3
            · have h7 := pyStrLt_trans h3 h4
              rw [h5] at h7
              cases h7
            · rw [h3] at h4
              rw [h5] at h4
              cases h4
        have hdom2 : ∀ e2 ∈ hist ++ [(b, ts)], pyStrLt ts e2.2 = false := by
          intro e2 he2
          rcases List.mem_append.mp he2 with h2 | h2
          · exact hdomts e2 h2
          · rw [List.mem_singleton.mp h2]
            exact pyStrLt_irrefl ts
        have hatt2 : ∃ e2 ∈ hist ++ [(b, ts)], e2.1 = b ∧ e2.2 = ts :=
          ⟨(b, ts), List.mem_append_right _ (List.mem_singleton.mpr rfl), rfl, rfl⟩
        have hle2 : ∀ e2 ∈ hist ++ [(b, ts)], e2.1 ≤ b := by
          intro e2 he2
          rcases List.mem_append.mp he2 with h2 | h2
          · exact le_of_lt (lt_of_le_of_lt (hle e2 h2) hblt)
          · rw [List.mem_singleton.mp h2]
        have hok2 : specSortedOK (hist ++ [(b, ts)]) := by
          apply specSortedOK_snoc hist b ts hok
          intro _ e2 he2 _
          exact hdomts e2 he2
        have hsort2 : List.Pairwise (fun a b => a.1 ≤ b.1)
            ((hist ++ [(b, ts)]) ++ rest) := by
          rw [List.append_assoc]
          exact hsort
        have := ih (hist ++ [(b, ts)]) b ts hsort2 hatt2 hle2 hdom2 hok2
        rw [List.append_assoc] at this
        exact this

/-- The per-session scan succeeds exactly on lists satisfying the amended
predicate (for bar-sorted lists, as produced by the stable sort). -/
theorem tsScan_none_iff (s : List (Int × String))
    (hs : List.Pairwise (fun a b => a.1 ≤ b.1) s) :
    tsScan s none = none ↔ specSortedOK s := by
  cases s with
  | nil => exact iff_of_true rfl specSortedOK_nil
  | cons e rest =>
    obtain ⟨b, ts⟩ := e
    show tsScan rest (some (b, ts)) = none ↔ _
    have := tsScan_iff rest [(b, ts)] b ts hs
      ⟨(b, ts), List.mem_singleton.mpr rfl, rfl, rfl⟩
      (by
        intro e2 he2
        rw [List.mem_singleton.mp he2])
      (by
        intro e2 he2
        rw [List.mem_singleton.mp he2]
        exact pyStrLt_irrefl ts)
      (specSortedOK_singleton _)
    exact this

theorem mem_insertByBar (x z : Int × String) (l : List (Int × String)) :
    z ∈ insertByBar x l ↔ z = x ∨ z ∈ l := by
  induction l with
  | nil =>
    unfold insertByBar
    simp
  | cons y ys ih =>
    unfold insertByBar
    split
    · rw [List.mem_cons, ih, List.mem_cons]
      tauto
    · rw [List.mem_cons, List.mem_cons]

theorem insertByBar_pairwise (x : Int × String) (l : List (Int × String))
    (h : List.Pairwise (fun a b => a.1 ≤ b.1) l) :
    List.Pairwise (fun a b => a.1 ≤ b.1) (insertByBar x l) := by
  induction l with
  | nil =>
    exact List.pairwise_singleton _ _
  | cons y ys ih =>
    rcases List.pairwise_cons.mp h with ⟨hy, hys⟩
    unfold insertByBar
    split
    · next hle =>
      refine List.pairwise_cons.mpr ⟨?_, ih hys⟩
      intro z hz
      rcases (mem_insertByBar x z ys).mp hz with h2 | h2
      · rw [h2]
        exact hle
      · exact hy z h2
    · next hgt =>
      refine List.pairwise_cons.mpr ⟨?_, h⟩
      intro z hz
      rcases List.mem_cons.mp hz with h2 | h2
      · rw [h2]
        exact le_of_lt (lt_of_not_le hgt)
      · exact le_trans (le_of_lt (lt_of_not_le hgt)) (hy z h2)

theorem foldl_insert_pairwise (l : List (Int × String)) :
    ∀ acc, List.Pairwise (fun a b => a.1 ≤ b.1) acc →
      List.Pairwise (fun a b => a.1 ≤ b.1)
        (l.foldl (fun acc x => insertByBar x acc) acc) := by
  induction l with
  | nil => intro acc h; exact h
  | cons x rest ih =>
    intro acc h
    exact ih _ (insertByBar_pairwise x acc h)

theorem stableSortByBar_pairwise (l : List (Int × String)) :
    List.Pairwise (fun a b => a.1 ≤ b.1) (stableSortByBar l) :=
  foldl_insert_pairwise l [] List.Pairwise.nil

/-- Inserting an entry with a different bar does not disturb the entries
at a given bar. -/
theorem insertByBar_filter_ne (x : Int × String) (l : List (Int × String))
    (b : Int) (hne : ¬ x.1 = b) :
    (insertByBar x l).filter (fun e => e.1 == b) =
      l.filter (fun e => e.1 == b) := by
  induction l with
  | nil =>
    unfold insertByBar
    rw [List.filter_cons]
    rw [if_neg (by simp [hne])]
  | cons y ys ih =>
    unfold insertByBar
    split
    · rw [List.filter_cons, List.filter_cons]
      split
      · rw [ih]
      · rw [ih]
    · rw [List.filter_cons, List.filter_cons]
      rw [if_neg (by simp [hne])]

/-- Inserting an entry at bar b into a bar-sorted list puts it after the
existing entries at bar b. -/
theorem insertByBar_filter_eq (x : Int × String) (l : List (Int × String))
    (hs : List.Pairwise (fun a b => a.1 ≤ b.1) l) :
    (insertByBar x l).filter (fun e => e.1 == x.1) =
      l.filter (fun e => e.1 == x.1) ++ [x] := by
  induction l with
  | nil =>
    unfold insertByBar
    simp [List.filter]
  | cons y ys ih =>
    rcases List.pairwise_cons.mp hs with ⟨hy, hys⟩
    unfold insertByBar
    split
    · next hle =>
      rw [List.filter_cons, List.filter_cons]
      split
      · rw [ih hys]
        rfl
      · rw [ih hys]
    · next hgt =>
      have hxlt : x.1 < y.1 := lt_of_not_le hgt
      have hfe : (y :: ys).filter (fun e => e.1 == x.1) = [] := by
        rw [List.filter_eq_nil_iff]
        intro e he
        rcases List.mem_cons.mp he with h2 | h2
        · rw [h2]
          simp
          omega
        · have := hy e h2
          simp
          omega
      rw [List.filter_cons, if_pos (by simp), hfe]
      rfl

theorem foldl_insert_filter (l : List (Int × String)) (b : Int) :
    ∀ acc, List.Pairwise (fun a b => a.1 ≤ b.1) acc →
      ((l.foldl (fun acc x => insertByBar x acc) acc).filter (fun e => e.1 == b)) =
        acc.filter (fun e => e.1 == b) ++ l.filter (fun e => e.1 == b) := by
  induction l with
  | nil =>
    intro acc _
    simp
  | cons x rest ih =>
    intro acc hacc
    show ((rest.foldl (fun acc x => insertByBar x acc) (insertByBar x acc)).filter
        (fun e => e.1 == b)) = _
    rw [ih (insertByBar x acc) (insertByBar_pairwise x acc hacc)]
    rw [List.filter_cons]
    by_cases hxb : x.1 = b
    · rw [if_pos (by simp [hxb])]
      rw [show insertByBar x acc = insertByBar x acc from rfl]
      rw [← hxb]
      rw [insertByBar_filter_eq x acc hacc]
      rw [hxb]
      simp
    · rw [if_neg (by simp [hxb])]
      rw [insertByBar_filter_ne x acc b hxb]

/-- The stable sort preserves, bar by bar, the input order of entries. -/
theorem stableSortByBar_filter (l : List (Int × String)) (b : Int) :
    (stableSortByBar l).filter (fun e => e.1 == b) =
      l.filter (fun e => e.1 == b) := by
  have := foldl_insert_filter l b [] List.Pairwise.nil
  unfold stableSortByBar
  rw [this]
  rfl

/-- C10: for a completely empty input file (no header at all) the loader
skips the required-columns check: no error of any kind is recorded, the run
exits 0 and every output table and counter is empty/zero. -/
theorem empty_file_runs_clean :
    (run { header := none, rows := [] }).1 = 0 ∧
    (run { header := none, rows := [] }).2.errors = [] ∧
    (run { header := none, rows := [] }).2.contexts = [] ∧
    (run { header := none, rows := [] }).2.engagements = [] ∧
    (run { header := none, rows := [] }).2.sum_context_rows = 0 ∧
    (run { header := none, rows := [] }).2.sum_engagement_rows = 0 ∧
    (run { header := none, rows := [] }).2.sum_error_count = 0 ∧
    summaryExitCode (run { header := none, rows := [] }).2 = 0 := by
  decide

/-- C5: the scenario snapshot@100 + lock@100 + engagement@105 in one
session exits 0 and yields exactly one complete context row and one
engagement with context_bar=100, orphan=FALSE, context_stale=FALSE. -/
theorem snap_lock_eng_scenario :
    (run inputSnapLockEng).1 = 0 ∧
    (run inputSnapLockEng).2.contexts.map (fun c => c.context_complete) = [true] ∧
    (run inputSnapLockEng).2.engagements.map
      (fun e => (e.context_bar, e.orphan, e.context_stale)) =
      [(some "100", false, some false)] ∧
    (run inputSnapLockEng).2.errors = [] := by
  decide

/-! ### Session grouping: characterizing sessionBarsLoop -/

theorem assocGet_sbAdd_eq (m : List (String × List (Int × String)))
    (sid : String) (e : Int × String) :
    assocGet (sbAdd m sid e) sid = some ((assocGet m sid).getD [] ++ [e]) := by
  induction m with
  | nil => simp [sbAdd, assocGet]
  | cons p rest ih =>
    obtain ⟨s, l⟩ := p
    by_cases h : s = sid
    · simp [sbAdd, assocGet, h]
    · simp [sbAdd, assocGet, h, ih]

theorem assocGet_sbAdd_ne (m : List (String × List (Int × String)))
    (sid sid' : String) (e : Int × String) (h : sid' ≠ sid) :
    assocGet (sbAdd m sid e) sid' = assocGet m sid' := by
  induction m with
  | nil => simp [sbAdd, assocGet, Ne.symm h]
  | cons p rest ih =>
    obtain ⟨s, l⟩ := p
    by_cases h2 : s = sid
    · subst h2
      simp [sbAdd, assocGet, Ne.symm h]
    · simp [sbAdd, assocGet, h2, ih]

theorem mem_sbAdd_keys (m : List (String × List (Int × String)))
    (sid : String) (e : Int × String) (k : String)
    (h : k ∈ (sbAdd m sid e).map (fun p => p.1)) :
    k ∈ m.map (fun p => p.1) ∨ k = sid := by
  induction m with
  | nil =>
    simp [sbAdd] at h
    exact Or.inr h
  | cons p rest ih =>
    obtain ⟨s, l⟩ := p
    by_cases h2 : s = sid
    · simp only [sbAdd, if_pos h2, List.map_cons, List.mem_cons] at h
      rcases h with h | h
      · exact Or.inl (by simp [h])
      · exact Or.inl (by simp [h])
    · simp only [sbAdd, if_neg h2, List.map_cons, List.mem_cons] at h
      rcases h with h | h
      · exact Or.inl (by simp [h])
      · rcases ih h with h3 | h3
        · exact Or.inl (by simp [h3])
        · exact Or.inr h3

theorem sbAdd_nodup (m : List (String × List (Int × String)))
    (sid : String) (e : Int × String)
    (h : (m.map (fun p => p.1)).Nodup) :
    ((sbAdd m sid e).map (fun p => p.1)).Nodup := by
  induction m with
  | nil => simp [sbAdd]
  | cons p rest ih =>
    obtain ⟨s, l⟩ := p
    simp only [List.map_cons, List.nodup_cons] at h
    by_cases h2 : s = sid
    · simp only [sbAdd, if_pos h2, List.map_cons, List.nodup_cons]
      exact ⟨h.1, h.2⟩
    · simp only [sbAdd, if_neg h2, List.map_cons, List.nodup_cons]
      refine ⟨?_, ih h.2⟩
      intro hmem
      rcases mem_sbAdd_keys rest sid e s hmem with h3 | h3
      · exact h.1 h3
      · exact h2 h3

theorem assocGet_of_mem_nodup {β : Type} (m : List (String × β)) (p : String × β)
    (hm : p ∈ m) (h : (m.map (fun q => q.1)).Nodup) :
    assocGet m p.1 = some p.2 := by
  induction m with
  | nil => cases hm
  | cons q rest ih =>
    simp only [List.map_cons, List.nodup_cons] at h
    rcases List.mem_cons.mp hm with h2 | h2
    · subst h2
      obtain ⟨a, b⟩ := p
      simp [assocGet]
    · obtain ⟨a, b⟩ := q
      have hne : a ≠ p.1 := by
        intro hh
        refine h.1 ?_
        rw [hh]
        exact List.mem_map.mpr ⟨p, h2, rfl⟩
      simp [assocGet, hne, ih h2 h.2]

theorem sessionBarsLoop_nodup (rows : List Row) :
    ∀ m m2, sessionBarsLoop rows m = .ok m2 →
      (m.map (fun p => p.1)).Nodup → (m2.map (fun p => p.1)).Nodup := by
  induction rows with
  | nil =>
    intro m m2 h hn
    cases h
    exact hn
  | cons r rest ih =>
    intro m m2 h hn
    revert h
    unfold sessionBarsLoop
    dsimp only
    cases hbar : rowBarInt? r with
    | none => intro h; cases h
    | some bar =>
      intro h
      exact ih _ _ h (sbAdd_nodup _ _ _ hn)

theorem sessionBarsLoop_assoc (rows : List Row) :
    ∀ m m2, sessionBarsLoop rows m = .ok m2 →
      ∀ sid, (assocGet m2 sid).getD [] =
        (assocGet m sid).getD [] ++ sessionEntries rows sid := by
  induction rows with
  | nil =>
    intro m m2 h sid
    cases h
    simp [sessionEntries]
  | cons r rest ih =>
    intro m m2 h sid
    revert h
    unfold sessionBarsLoop
    dsimp only
    cases hbar : rowBarInt? r with
    | none => intro h; cases h
    | some bar =>
      intro h
      have hrec := ih _ _ h sid
      by_cases hs : rgetD r "session_id" "" = sid
      · rw [hs] at hrec
        rw [assocGet_sbAdd_eq] at hrec
        simp only [Option.getD_some] at hrec
        have hse : sessionEntries (r :: rest) sid =
            (bar, rgetD r "ts" "") :: sessionEntries rest sid := by
          simp [sessionEntries, List.filterMap_cons, hs, hbar]
        rw [hse, hrec]
        simp
      · rw [assocGet_sbAdd_ne m (rgetD r "session_id" "") sid _
            (fun hh => hs hh.symm)] at hrec
        have hse : sessionEntries (r :: rest) sid = sessionEntries rest sid := by
          simp [sessionEntries, List.filterMap_cons, hs]
        rw [hse, hrec]

/-- Starting from an empty map, each collected session holds exactly its
rows' (bar, ts) entries in input order. -/
theorem sessionBarsLoop_entries (rows : List Row)
    (m2 : List (String × List (Int × String)))
    (h : sessionBarsLoop rows [] = .ok m2) :
    ∀ p ∈ m2, p.2 = sessionEntries rows p.1 := by
  intro p hp
  have hn := sessionBarsLoop_nodup rows [] m2 h (by simp)
  have ha := assocGet_of_mem_nodup m2 p hp hn
  have hc := sessionBarsLoop_assoc rows [] m2 h p.1
  rw [ha] at hc
  simpa using hc

/-! ### Aggregating the per-session scans -/

theorem tsSessionsScan_true_iff (m : List (String × List (Int × String))) :
    ∀ st, (tsSessionsScan st m).2 = true ↔
      ∀ p ∈ m, specSortedOK (stableSortByBar p.2) := by
  induction m with
  | nil =>
    intro st
    simp [tsSessionsScan]
  | cons q rest ih =>
    intro st
    obtain ⟨sid, l⟩ := q
    unfold tsSessionsScan
    cases hscan : tsScan (stableSortByBar l) none with
    | some pv =>
      obtain ⟨pp, vv⟩ := pv
      dsimp only
      constructor
      · intro h
        exact Bool.noConfusion h
      · intro h
        exfalso
        have hok := h (sid, l) (List.mem_cons_self _ _)
        have hnone := (tsScan_none_iff (stableSortByBar l)
          (stableSortByBar_pairwise l)).mpr hok
        rw [hscan] at hnone
        cases hnone
    | none =>
      dsimp only
      constructor
      · intro h q hq
        rcases List.mem_cons.mp hq with h2 | h2
        · subst h2
          exact (tsScan_none_iff _ (stableSortByBar_pairwise _)).mp hscan
        · exact (ih st).mp h q h2
      · intro h
        exact (ih st).mpr (fun q hq => h q (List.mem_cons_of_mem _ hq))

/-- A rejected scan leaves a TIMESTAMP_INVERSION record naming the two
compared (bar, ts) pairs. -/
theorem tsSessionsScan_false_named (m : List (String × List (Int × String))) :
    ∀ st st2, tsSessionsScan st m = (st2, false) →
      ∃ sid p v, tsInversionError sid p v ∈ st2.errors := by
  induction m with
  | nil =>
    intro st st2 h
    cases h
  | cons q rest ih =>
    intro st st2
    obtain ⟨sid, l⟩ := q
    unfold tsSessionsScan
    cases hscan : tsScan (stableSortByBar l) none with
    | some pv =>
      obtain ⟨pp, vv⟩ := pv
      dsimp only
      intro h
      cases h
      exact ⟨sid, pp, vv, mem_addError_self _ _⟩
    | none =>
      dsimp only
      exact ih st st2

/-- C3: counterexample.  The validator accepts rowsTsGap although the
claimed condition is violated there: in session 1 the timestamp "a" is
recorded at bar 2 while the maximum timestamp at the earlier bar 1 is "b"
and "a" < "b".  Only the first timestamp listed at each new bar is compared
against the running maximum; later entries at the same bar merely update
the maximum and are never themselves checked. -/
theorem timestamp_gap_cex :
    validateTimestamps initSt rowsTsGap = PRes.ok initSt true ∧
    claimTimestampViolation rowsTsGap = true := by
  decide

/-- C3 (amended): the validator groups rows into per-session (bar, ts)
lists in input order, sorts each stably by bar, and accepts exactly when in
every session each timestamp that is the first listed at its bar is not
lexically less than the maximum timestamp seen at earlier bars; timestamps
listed at an already-seen bar only update the running maximum and are never
themselves checked.  On rejection a FATAL TIMESTAMP_INVERSION error naming
two compared (bar, ts) pairs is recorded, and a run halted this way
exits 2. -/
theorem timestamp_validator_amended :
    (∀ st rows m, sessionBarsLoop rows [] = Except.ok m →
      validateTimestamps st rows =
        PRes.ok (tsSessionsScan st m).1 (tsSessionsScan st m).2 ∧
      (∀ p ∈ m, p.2 = sessionEntries rows p.1) ∧
      ((tsSessionsScan st m).2 = true ↔
        ∀ p ∈ m, specSortedOK (stableSortByBar p.2))) ∧
    (∀ l : List (Int × String),
      List.Pairwise (fun a b => a.1 ≤ b.1) (stableSortByBar l) ∧
      ∀ b : Int, (stableSortByBar l).filter (fun e => e.1 == b) =
        l.filter (fun e => e.1 == b)) ∧
    (∀ st rows st2, validateTimestamps st rows = PRes.ok st2 false →
      st2.has_fatal = true ∧
      (∃ e ∈ st2.errors, e.error_type = "TIMESTAMP_INVERSION" ∧
        e.severity = "FATAL") ∧
      ∃ sid p v, tsInversionError sid p v ∈ st2.errors) ∧
    ((run inputTsBad).1 = 2 ∧
      (run inputTsBad).2.errors.map
        (fun e => (e.error_type, e.severity, e.value_a, e.value_b)) =
        [("TIMESTAMP_INVERSION", "FATAL", some "bar1=b", some "bar2=a")]) := by
  refine ⟨?_, ?_, ?_, by decide, by decide⟩
  · intro st rows m h
    refine ⟨?_, sessionBarsLoop_entries rows m h, tsSessionsScan_true_iff m st⟩
    unfold validateTimestamps
    rw [h]
  · intro l
    exact ⟨stableSortByBar_pairwise l, fun b => stableSortByBar_filter l b⟩
  · intro st rows st2 h
    refine ⟨(validateTimestamps_false st rows st2 h).1,
            (validateTimestamps_false st rows st2 h).2, ?_⟩
    revert h
    unfold validateTimestamps
    split
    · intro h
      cases h
    · intro h
      dsimp only at h
      injection h with h1 h2
      exact tsSessionsScan_false_named _ _ _ (by rw [← h1, ← h2])

/-- Witness: the amended theorem applied at the concrete grouping of
rowsTsBad, whose single session rejects. -/
theorem timestamp_validator_amended_witness :
    (validateTimestamps initSt rowsTsBad =
      PRes.ok (tsSessionsScan initSt [("1", [((1 : Int), "b"), ((2 : Int), "a")])]).1
        (tsSessionsScan initSt [("1", [((1 : Int), "b"), ((2 : Int), "a")])]).2) ∧
    (tsSessionsScan initSt [("1", [((1 : Int), "b"), ((2 : Int), "a")])]).2 = false :=
  ⟨(timestamp_validator_amended.1 initSt rowsTsBad
      [("1", [((1 : Int), "b"), ((2 : Int), "a")])] rfl).1, by decide⟩

end MergeSpec
